import Mathlib

/-!
Verification of the httprpc routing, middleware and codec core.

This file shallowly embeds the Go sources (serve.go, endpoint.go, encode.go,
handler.go, error.go, the meta decoding in gen-ts_test.go and the helpers in
gen-ts.go) as executable Lean definitions and proves, or refutes, the spec
claims about them.  Strings model Go strings (all inputs of interest are
ASCII, where Lean character operations agree with Go byte/rune operations);
Go maps are modelled as association lists queried by key, and map-key
iterations that the code sorts afterwards are modelled by sorting the
insertion-order key list, which yields the same sorted output.
-/

deriving instance DecidableEq for Except

namespace Httprpc

/-- Go strings.Trim for a one-character cutset, on a character list. -/
def trimCharList (c : Char) (l : List Char) : List Char :=
  ((l.dropWhile (· = c)).reverse.dropWhile (· = c)).reverse

/-- Go strings.Trim(s, "/") . -/
def goTrimSlashes (s : String) : String :=
  String.mk (trimCharList '/' s.toList)

/-- ASCII part of Go unicode.IsSpace, which is all the claims exercise. -/
def goIsSpace (c : Char) : Bool :=
  c = ' ' || c = '\t' || c = '\n' || c = Char.ofNat 11 || c = Char.ofNat 12 || c = '\r'

/-- Go strings.TrimSpace (ASCII). -/
def goTrimSpace (s : String) : String :=
  String.mk (((s.toList.dropWhile goIsSpace).reverse.dropWhile goIsSpace).reverse)

/-- Go strings.Contains for a one-character substring. -/
def goContainsChar (s : String) (c : Char) : Bool :=
  s.toList.contains c

/-- Go strings.Split(s, sep) for a one-character separator, on lists. -/
def splitCharList (sep : Char) : List Char → List (List Char)
  | [] => [[]]
  | c :: rest =>
    let r := splitCharList sep rest
    if c = sep then [] :: r
    else
      match r with
      | h :: t => (c :: h) :: t
      | [] => [[c]]

/-- Go strings.Split(s, sep) for a one-character separator. -/
def splitOnChar (sep : Char) (s : String) : List String :=
  (splitCharList sep s.toList).map String.mk

/-- Go strings.HasPrefix(s, p) for a one-character p. -/
def startsWithChar (s : String) (c : Char) : Bool :=
  match s.toList with
  | [] => false
  | c' :: _ => c' = c

/-- Go strings.TrimPrefix(s, p) for a one-character p. -/
def trimPrefixChar (s : String) (c : Char) : String :=
  if startsWithChar s c then String.mk (s.toList.drop 1) else s

/-- Go len(s); all strings of interest are ASCII, where the byte length
equals the character count. -/
def charLen (s : String) : Nat :=
  s.toList.length

/-- Go strings.Join. -/
def joinStrings (sep : String) : List String → String
  | [] => ""
  | [x] => x
  | x :: xs => x ++ sep ++ joinStrings sep xs

/-- gen-ts.go isSnakeCase: lower-case letters anywhere, digits and
underscores only after the first rune, first rune a lower-case letter. -/
def isSnakeCase (s : String) : Bool :=
  if s = "" then false
  else
    (s.toList.enum.all fun p =>
      ('a' ≤ p.2 && p.2 ≤ 'z') || (decide (0 < p.1) && '0' ≤ p.2 && p.2 ≤ '9')
        || (decide (0 < p.1) && p.2 = '_'))
    && (match s.toList with
        | [] => false
        | c :: _ => 'a' ≤ c && c ≤ 'z')

/-- serve.go normalizeRoutePath: "/" ++ Trim(path, "/"); the source's
`if path == "/"` branch returns the same string and is the identity here. -/
def normalizeRoutePath (path : String) : String :=
  "/" ++ goTrimSlashes path

/-- serve.go normalizeRequestPath, identical in body to normalizeRoutePath. -/
def normalizeRequestPath (path : String) : String :=
  "/" ++ goTrimSlashes path

/-- serve.go routePattern: concrete path, canonical shape, raw segments and
ordered parameter names. -/
structure RoutePattern where
  path : String
  shape : String
  segments : List String
  params : List String
deriving DecidableEq, Repr

/-- One step of the parseRoutePattern segment loop, carrying the
accumulated params, shapeParts and seenParams sets. -/
def parseSegments (normPath : String) :
    List String → List String → List String → List String →
    Except String (List String × List String)
  | [], params, shapeParts, _ => .ok (params, shapeParts)
  | part :: rest, params, shapeParts, seenParams =>
    if goContainsChar part '{' || goContainsChar part '}' then
      .error s!"invalid path segment \"{part}\": use :name for params"
    else if startsWithChar part ':' then
      let name := trimPrefixChar part ':'
      if name = "" then
        .error s!"invalid path segment \"{part}\": missing param name"
      else if goContainsChar name ':' then
        .error s!"invalid path segment \"{part}\": unexpected \x27:\x27"
      else if ¬ isSnakeCase name then
        .error s!"invalid path param \"{name}\": must be snake_case"
      else if seenParams.contains name then
        .error s!"duplicate path param \"{name}\" in {normPath}"
      else
        parseSegments normPath rest (params ++ [name]) (shapeParts ++ [":"])
          (seenParams ++ [name])
    else if goContainsChar part ':' then
      .error s!"invalid path segment \"{part}\": use :name for params"
    else
      parseSegments normPath rest params (shapeParts ++ [part]) seenParams

/-- serve.go parseRoutePattern after its opening `path = normalizeRoutePath(path)`
reassignment: everything below operates on the normalized path. -/
def parseRouteCore (path : String) : Except String RoutePattern :=
  if path = "/" then
    .ok { path := path, shape := path, segments := [""], params := [] }
  else
    let parts := splitOnChar '/' (goTrimSlashes path)
    match parseSegments path parts [] [] [] with
    | .error e => .error e
    | .ok (params, shapeParts) =>
      .ok { path := path
            shape := "/" ++ joinStrings "/" shapeParts
            segments := parts
            params := params }

/-- serve.go parseRoutePattern. -/
def parseRoutePattern (path : String) : Except String RoutePattern :=
  parseRouteCore (normalizeRoutePath path)

/-- serve.go pathParamName: ":" prefix of length at least two, name with
surrounding space trimmed, empty name rejected. -/
def pathParamName (segment : String) : Option String :=
  if charLen segment < 2 then none
  else if ¬ startsWithChar segment ':' then none
  else
    let name := goTrimSpace (String.mk (segment.toList.drop 1))
    if name = "" then none else some name

/-- First-match association-list lookup, the model of a Go map read. -/
def alookup {β : Type} : List (String × β) → String → Option β
  | [], _ => none
  | (k, v) :: rest, key => if k = key then some v else alookup rest key

/-- Replace the value stored under a key (first occurrence), the model of a
Go map write to an existing key. -/
def updAssoc {β : Type} : List (String × β) → String → β → List (String × β)
  | [], _, _ => []
  | (k, v) :: rest, key, nv =>
    if k = key then (key, nv) :: rest else (k, v) :: updAssoc rest key nv

/-- Go map assignment: overwrite if present, append otherwise. -/
def mapSet (l : List (String × String)) (k v : String) : List (String × String) :=
  if (alookup l k).isSome then updAssoc l k v else l ++ [(k, v)]

/-- The value-capturing loop of routePattern.match over zipped pattern
segments and request segments. -/
def matchSegments : List (String × String) → List (String × String) →
    Option (List (String × String))
  | [], values => some values
  | (seg, part) :: rest, values =>
    match pathParamName seg with
    | some name => matchSegments rest (mapSet values name part)
    | none => if seg ≠ part then none else matchSegments rest values

/-- serve.go routePattern.match: `none` is the nil-values non-match,
`some values` the captured Path Parameter Bag. -/
def RoutePattern.matchPath (p : RoutePattern) (path : String) :
    Option (List (String × String)) :=
  if p.path = path then some []
  else
    let parts := splitOnChar '/' (goTrimSlashes path)
    if p.segments.length ≠ parts.length then none
    else matchSegments (p.segments.zip parts) []

/-! ## Middleware composer (serve.go collectMiddlewares / applyMiddlewares)

An untyped middleware is observed through the call trace it produces: the
handler is the trace it emits when invoked, and wrapping by a middleware
named `n` prepends `n ++ "-before"` and appends `n ++ "-after"`, exactly the
shape of the end-to-end ordering test.  Go sort.SliceStable with the
comparison `Priority i < Priority j` is a stable ascending sort by priority;
any stable sort computes the same list, so it is modelled by
`List.insertionSort` with the reflexive relation `mwLE`. -/

/-- endpoint.go MiddlewareWithPriority, with the transport wrapper function
identified by its name. -/
structure MW where
  name : String
  priority : Int
deriving DecidableEq, Repr

/-- The call trace a handler produces. -/
abbrev Trace := List String

/-- Wrapping a trace-handler in the named middleware. -/
def wrapT (m : MW) (h : Trace) : Trace :=
  (m.name ++ "-before") :: h ++ [m.name ++ "-after"]

/-- The sort.SliceStable comparison of applyMiddlewares, as the reflexive
relation of a stable ascending sort. -/
def mwLE (a b : MW) : Prop := a.priority ≤ b.priority

instance : DecidableRel mwLE := fun x y => inferInstanceAs (Decidable (x.priority ≤ y.priority))

instance : IsTotal MW mwLE := ⟨fun a b => Int.le_total a.priority b.priority⟩

instance : IsTrans MW mwLE := ⟨fun _ _ _ h h' => le_trans h h'⟩

/-- serve.go collectMiddlewares: walk from the endpoint's group to the root
(leaf first), concatenating each group's own entries in registration order.
A group chain is the list of per-group middleware lists, leaf first. -/
def collectMiddlewares (chain : List (List MW)) : List MW :=
  chain.flatten

/-- serve.go applyMiddlewares: stable-sort ascending by priority, then wrap
the handler with each entry in list order, so the last entry is outermost. -/
def applyMiddlewares (h : Trace) (middlewares : List MW) : Trace :=
  (List.insertionSort mwLE middlewares).foldl (fun h m => wrapT m h) h

/-! ## Dispatch table (serve.go buildHandler) -/

/-- endpoint.go endpoint: a registered endpoint as buildHandler consumes it.
The transport handler is a trace and the originating group is its chain. -/
structure Ep where
  path : String
  method : String
  handler : Trace
  chain : List (List MW)
deriving DecidableEq, Repr

/-- The handler after group middleware application
(`applyMiddlewares(h, collectMiddlewares(e.Group))`). -/
def composedOf (e : Ep) : Trace :=
  applyMiddlewares e.handler (collectMiddlewares e.chain)

/-- In-progress route table: static paths and compiled patterns, each with
its per-method handler list in insertion order. -/
structure BuildSt where
  statics : List (String × List (String × Trace))
  patterns : List (RoutePattern × List (String × Trace))
deriving DecidableEq, Repr

/-- patternByShape lookup: the first compiled pattern with this shape. -/
def pfind (l : List (RoutePattern × List (String × Trace))) (shape : String) :
    Option (RoutePattern × List (String × Trace)) :=
  l.find? (fun q => q.1.shape = shape)

/-- Mutating the methods of the compiled pattern with the given shape. -/
def addPatternMethod (l : List (RoutePattern × List (String × Trace)))
    (shape method : String) (h : Trace) :
    List (RoutePattern × List (String × Trace)) :=
  l.map (fun q => if q.1.shape = shape then (q.1, q.2 ++ [(method, h)]) else q)

/-- One iteration of the buildHandler endpoint loop: compile the path, route
it into the static table or the pattern list, detecting ambiguity and
duplicates. -/
def buildStep (st : BuildSt) (e : Ep) : Except String BuildSt :=
  match parseRoutePattern e.path with
  | .error msg => .error s!"invalid route {e.method} {e.path}: {msg}"
  | .ok pat =>
    let h := composedOf e
    if pat.params ≠ [] then
      match pfind st.patterns pat.shape with
      | some q =>
        if q.1.path ≠ pat.path then
          .error s!"ambiguous route: {pat.path} conflicts with {q.1.path}"
        else if (alookup q.2 e.method).isSome then
          .error s!"duplicate route: {e.method} {pat.path}"
        else
          .ok { st with patterns := addPatternMethod st.patterns pat.shape e.method h }
      | none =>
        .ok { st with patterns := st.patterns ++ [(pat, [(e.method, h)])] }
    else
      match alookup st.statics pat.path with
      | some ms =>
        if (alookup ms e.method).isSome then
          .error s!"duplicate route: {e.method} {pat.path}"
        else
          .ok { st with statics := updAssoc st.statics pat.path (ms ++ [(e.method, h)]) }
      | none =>
        .ok { st with statics := st.statics ++ [(pat.path, [(e.method, h)])] }

/-- The buildHandler endpoint loop over the root's handler list. -/
def buildGo : BuildSt → List Ep → Except String BuildSt
  | st, [] => .ok st
  | st, e :: rest =>
    match buildStep st e with
    | .error msg => .error msg
    | .ok st' => buildGo st' rest

/-- Byte-wise (here character-wise, all ASCII) lexicographic order on
strings, as Go string comparison defines it. -/
def lexLeChars : List Char → List Char → Bool
  | [], _ => true
  | _ :: _, [] => false
  | a :: as, b :: bs => if a < b then true else if a = b then lexLeChars as bs else false

/-- Go string `<=`. -/
def goStrLE (a b : String) : Prop := lexLeChars a.toList b.toList = true

instance : DecidableRel goStrLE := fun a b =>
  inferInstanceAs (Decidable (lexLeChars a.toList b.toList = true))

/-- Go sort.Strings, modelled as an ascending sort of the insertion-order
key list (Go sorts an arbitrary map-iteration permutation of the same keys,
with the same sorted result). -/
def sortStrings (l : List String) : List String :=
  List.insertionSort goStrLE l

/-- The precomputed Allow header value: sorted methods joined by ", ". -/
def allowOf (methods : List String) : String :=
  joinStrings ", " (sortStrings methods)

/-- A finalized per-path method set with its precomputed Allow value. -/
structure RouteMethods where
  byMethod : List (String × Trace)
  allow : String
deriving DecidableEq, Repr

/-- The immutable dispatch table buildHandler closes over. -/
structure Table where
  statics : List (String × RouteMethods)
  patterns : List (RoutePattern × RouteMethods)
  fallback : Option Trace
deriving DecidableEq, Repr

/-- The allow-precomputation loops plus the closure capture of the fallback
(already wrapped in the root chain's middlewares). -/
def finalize (st : BuildSt) (fb : Option Trace) (rootChain : List (List MW)) : Table :=
  { statics := st.statics.map (fun p => (p.1, ⟨p.2, allowOf (p.2.map Prod.fst)⟩))
    patterns := st.patterns.map (fun p => (p.1, ⟨p.2, allowOf (p.2.map Prod.fst)⟩))
    fallback := fb.map (fun f => applyMiddlewares f (collectMiddlewares rootChain)) }

/-- Router.buildHandler, build phase: compile every endpoint or fail with
the first conflict, returning no table at all on error. -/
def buildTable (handlers : List Ep) (fb : Option Trace)
    (rootChain : List (List MW)) : Except String Table :=
  match buildGo ⟨[], []⟩ handlers with
  | .error msg => .error msg
  | .ok st => .ok (finalize st fb rootChain)

/-- The serve-phase outcome for one request. -/
inductive ServeOut
  | matched (h : Trace) (params : List (String × String))
  | methodNotAllowed (allow : Option String)
  | fallbackRun (h : Trace)
  | notFound
deriving DecidableEq, Repr

/-- Router.buildHandler, serve phase: static table first, then the first
matching compiled pattern, then fallback or 404; a present path with an
absent method answers 405 with the precomputed Allow header (set only when
non-empty). -/
def serve (t : Table) (method rawPath : String) : ServeOut :=
  let requestPath := normalizeRequestPath rawPath
  match alookup t.statics requestPath with
  | some m =>
    match alookup m.byMethod method with
    | some h => .matched h []
    | none => .methodNotAllowed (if m.allow ≠ "" then some m.allow else none)
  | none =>
    match t.patterns.find? (fun p => (p.1.matchPath requestPath).isSome) with
    | some p =>
      match alookup p.2.byMethod method with
      | some h => .matched h ((p.1.matchPath requestPath).getD [])
      | none => .methodNotAllowed (if p.2.allow ≠ "" then some p.2.allow else none)
    | none =>
      match t.fallback with
      | some f => .fallbackRun f
      | none => .notFound

/-! ## Error values (error.go, fmt.Errorf wrapping)

A Go error value is a plain errors.New/fmt.Errorf message, a fmt.Errorf
"%w" wrapper, or a StatusError with an optional wrapped error.  errors.As
with a StatusError target stops at the first StatusError in the unwrap
chain. -/

inductive GoErr
  | errorf (msg : String)
  | wrap (pre : String) (inner : GoErr)
  | statusErrNil (status : Int)
  | statusErr (status : Int) (inner : GoErr)
deriving DecidableEq, Repr

/-- error.go StatusError.Error (empty for a nil Err) plus the standard
message forms of errors.New and fmt.Errorf "%w" wrapping; statusErrNil is
StatusError with a nil wrapped error. -/
def GoErr.message : GoErr → String
  | .errorf m => m
  | .wrap p e => p ++ e.message
  | .statusErrNil _ => ""
  | .statusErr _ e => e.message

/-- errors.As(err, &se) for the StatusError target: the Status of the
first StatusError found along the unwrap chain, if any. -/
def GoErr.asStatusError : GoErr → Option Int
  | .errorf _ => none
  | .wrap _ e => e.asStatusError
  | .statusErrNil s => some s
  | .statusErr s _ => some s

/-- An encoded error response of the default codec: status code,
Content-Type and the JSON object written as a field list. -/
structure ErrorResponse where
  status : Int
  contentType : String
  body : List (String × String)
deriving DecidableEq, Repr

/-- encode.go DefaultCodec.EncodeError: status from a wrapped StatusError
when its Status is non-zero, 500 otherwise, body the single-field object
with key "error" and the error's message. -/
def encodeError (err : GoErr) : ErrorResponse :=
  let status : Int :=
    match err.asStatusError with
    | some s => if s ≠ 0 then s else 500
    | none => 500
  { status := status, contentType := "application/json"
    body := [("error", err.message)] }

/-! ## Field coercion (encode.go)

Struct types are modelled by their exported-field lists; field kinds cover
the built-in Go kinds the claims are about.  None of the modelled kinds has
a pointer type implementing encoding.TextUnmarshaler (time.Time and user
types with an UnmarshalText method are outside the model), and every call
site of setFromStrings passes an addressable, settable value (a field of an
addressable struct, an element of a fresh MakeSlice, a New pointee), so
CanAddr and CanSet are the constant true in the model. -/

inductive FieldType
  | str
  | bool
  | intT (goName : String) (bits : Nat)
  | uintT (goName : String) (bits : Nat)
  | floatT (goName : String) (bits : Nat)
  | slice (elem : FieldType)
  | ptr (elem : FieldType)
deriving DecidableEq, Repr

/-- The reflect type name used in error messages. -/
def goTypeName : FieldType → String
  | .str => "string"
  | .bool => "bool"
  | .intT n _ => n
  | .uintT n _ => n
  | .floatT n _ => n
  | .slice e => "[]" ++ goTypeName e
  | .ptr e => "*" ++ goTypeName e

/-- v.CanAddr() at every setFromStrings call site. -/
def goCanAddr : Bool := true

/-- Whether *T implements encoding.TextUnmarshaler, for modelled T. -/
def implementsTextUnmarshaler : FieldType → Bool := fun _ => false

inductive GoValue
  | vStr (s : String)
  | vBool (b : Bool)
  | vInt (i : Int)
  | vUInt (n : Nat)
  | vFloat (text : String)
  | vSlice (elem : FieldType) (elems : List GoValue)
  | vPtr (elem : FieldType) (v : Option GoValue)

/-- The zero value of a field type. -/
def zeroValue : FieldType → GoValue
  | .str => .vStr ""
  | .bool => .vBool false
  | .intT _ _ => .vInt 0
  | .uintT _ _ => .vUInt 0
  | .floatT _ _ => .vFloat "0"
  | .slice e => .vSlice e []
  | .ptr e => .vPtr e none

/-- strconv.ParseBool. -/
def goParseBool (s : String) : Option Bool :=
  if s = "1" || s = "t" || s = "T" || s = "TRUE" || s = "true" || s = "True" then some true
  else if s = "0" || s = "f" || s = "F" || s = "FALSE" || s = "false" || s = "False" then some false
  else none

/-- Decimal digit run to a natural number. -/
def digitsToNat? (l : List Char) : Option Nat :=
  if l = [] || ¬ l.all Char.isDigit then none
  else some (l.foldl (fun acc c => acc * 10 + (c.toNat - '0'.toNat)) 0)

/-- strconv.ParseInt(s, 10, bits): optional sign, decimal digits, range
check against the two's-complement bounds. -/
def goParseInt (s : String) (bits : Nat) : Option Int :=
  let (neg, digits) :=
    match s.toList with
    | '-' :: rest => (true, rest)
    | '+' :: rest => (false, rest)
    | l => (false, l)
  match digitsToNat? digits with
  | none => none
  | some n =>
    let v : Int := if neg then -(n : Int) else (n : Int)
    if -(2 ^ (bits - 1) : Int) ≤ v ∧ v < (2 ^ (bits - 1) : Int) then some v else none

/-- strconv.ParseUint(s, 10, bits): decimal digits only, range check. -/
def goParseUint (s : String) (bits : Nat) : Option Nat :=
  match digitsToNat? s.toList with
  | none => none
  | some n => if n < 2 ^ bits then some n else none

/-- strconv.ParseFloat, modelled as a recognizer of plain decimal forms
keeping the accepted text (the branch using it is unreachable: the
TextUnmarshaler type assertion above it fails first for every modelled
type, so exponent/hex/inf forms never matter). -/
def goParseFloat (s : String) : Option String :=
  let body :=
    match s.toList with
    | '-' :: rest => rest
    | '+' :: rest => rest
    | l => l
  match splitCharList '.' body with
  | [ds] => if digitsToNat? ds ≠ none then some s else none
  | [ds, fs] => if digitsToNat? ds ≠ none ∧ digitsToNat? fs ≠ none then some s else none
  | _ => none

/-- The element loop of the reflect.Slice case, decoding each wire value
into a zero-initialized MakeSlice element with the element decoder. -/
def decodeElemsWith (f : List String → Except GoErr GoValue) :
    List String → Except GoErr (List GoValue)
  | [] => .ok []
  | v :: vs =>
    match f [v] with
    | .error e => .error e
    | .ok x =>
      match decodeElemsWith f vs with
      | .error e => .error e
      | .ok xs => .ok (x :: xs)

/-- encode.go setFromStrings.  The CanSet guard never fires (all call sites
pass settable values).  With CanAddr true, the TextUnmarshaler type
assertion is attempted first and returns an error whenever the type does
not implement it, which is every modelled type, making the kind switch
below it unreachable; the switch is still translated in full. -/
def setFromStrings : FieldType → GoValue → List String → Except GoErr GoValue
  | t, cur, vals =>
    if vals = [] then .ok cur
    else if goCanAddr then
      if implementsTextUnmarshaler t then
        .error (.wrap "unmarshal text: " (.errorf "outside model"))
      else
        .error (.errorf s!"type {goTypeName t} does not implement TextUnmarshaler")
    else
      match t with
      | .ptr e =>
        let inner :=
          match cur with
          | .vPtr _ (some v) => v
          | _ => zeroValue e
        (setFromStrings e inner vals).map (fun v => .vPtr e (some v))
      | .str => .ok (.vStr (vals.headD ""))
      | .bool =>
        match goParseBool (vals.headD "") with
        | some b => .ok (.vBool b)
        | none => .error (.wrap "parse bool: " (.errorf "invalid syntax"))
      | .intT _ bits =>
        match goParseInt (vals.headD "") bits with
        | some i => .ok (.vInt i)
        | none => .error (.wrap "parse int: " (.errorf "invalid syntax"))
      | .uintT _ bits =>
        match goParseUint (vals.headD "") bits with
        | some u => .ok (.vUInt u)
        | none => .error (.wrap "parse uint: " (.errorf "invalid syntax"))
      | .floatT _ _ =>
        match goParseFloat (vals.headD "") with
        | some f => .ok (.vFloat f)
        | none => .error (.wrap "parse float: " (.errorf "invalid syntax"))
      | .slice e =>
        if e = .uintT "uint8" 8 then
          .ok (.vSlice e ((vals.headD "").toList.map (fun c => .vUInt c.toNat)))
        else
          (decodeElemsWith (setFromStrings e (zeroValue e)) vals).map (.vSlice e)

/-- A struct field as reflection sees it: identifier, type, raw tag map,
exported flag, and whether it is an anonymous field of struct kind (those
are skipped by every walker). -/
structure StructField where
  name : String
  ftype : FieldType
  tags : List (String × String)
  exported : Bool := true
  anonymousStruct : Bool := false
deriving DecidableEq, Repr

/-- encode.go tagName: (name, found, skip). -/
def tagName (f : StructField) (key : String) : Option String × Bool × Bool :=
  match alookup f.tags key with
  | none => (none, false, false)
  | some tag =>
    if tag = "-" then (none, true, true)
    else (some ((splitOnChar ',' tag).headD ""), true, false)

/-- gen-ts.go toSnakeCase, translated with an explicit index loop so the
one-rune lookahead (`nextLower`) is available. -/
def toSnakeCase (s : String) : String :=
  let rs := (goTrimSpace s).toList
  let n := rs.length
  let step := fun (st : List Char × Char × Bool) (p : Nat × Char) =>
    let (out, prev, wroteUnderscore) := st
    let i := p.1
    let r := p.2
    if r = '_' || r = '-' || goIsSpace r then
      if out ≠ [] ∧ ¬ wroteUnderscore then (out ++ ['_'], r, true)
      else (out, r, wroteUnderscore)
    else if r.isUpper then
      let nextLower := decide (i + 1 < n) && ((rs.getD (i + 1) ' ').isLower)
      let out :=
        if out ≠ [] ∧ ¬ wroteUnderscore ∧ (prev.isLower ∨ prev.isDigit ∨ nextLower = true) then
          out ++ ['_']
        else out
      (out ++ [r.toLower], r, false)
    else if r.isLower ∨ r.isDigit then
      (out ++ [r.toLower], r, false)
    else (out, r, wroteUnderscore)
  let out := (rs.enum.foldl step ([], Char.ofNat 0, false)).1
  String.mk (trimCharList '_' out)

/-- encode.go queryFieldName: query tag, then json tag, then snake-case of
the field identifier. -/
def queryFieldName (ownerName : String) (f : StructField) :
    Except GoErr (Option String) :=
  let (qv, qfound, qskip) := tagName f "query"
  if qfound ∧ qskip then .ok none
  else if qfound ∧ qv.getD "" ≠ "" then .ok (some (qv.getD ""))
  else
    let (jv, jfound, jskip) := tagName f "json"
    if jfound ∧ jskip then .ok none
    else if jfound ∧ jv.getD "" ≠ "" then .ok (some (jv.getD ""))
    else
      let fallback := if toSnakeCase f.name = "" then f.name else toSnakeCase f.name
      if fallback = "" then .error (.errorf s!"{ownerName}.{f.name}: empty field name")
      else .ok (some fallback)

/-- The per-field body of the decodeQueryParams loop. -/
def decodeQueryField (ownerName : String) (f : StructField)
    (query : List (String × List String)) : Except GoErr GoValue :=
  if ¬ f.exported then .ok (zeroValue f.ftype)
  else if f.anonymousStruct then .ok (zeroValue f.ftype)
  else
    match queryFieldName ownerName f with
    | .error e => .error e
    | .ok none => .ok (zeroValue f.ftype)
    | .ok (some name) =>
      match alookup query name with
      | none => .ok (zeroValue f.ftype)
      | some vals =>
        match setFromStrings f.ftype (zeroValue f.ftype) vals with
        | .error e => .error (.wrap s!"decode query {name}: " e)
        | .ok v => .ok v

/-- The decodeQueryParams field loop; the request value is the list of
field values in declaration order. -/
def decodeQueryFieldsGo (ownerName : String) :
    List StructField → List (String × List String) → Except GoErr (List GoValue)
  | [], _ => .ok []
  | f :: fs, query =>
    match decodeQueryField ownerName f query with
    | .error e => .error e
    | .ok v =>
      match decodeQueryFieldsGo ownerName fs query with
      | .error e => .error e
      | .ok rest => .ok (v :: rest)

/-- encode.go decodeQueryParams: an empty query map short-circuits to the
zero value; the request type is a struct in the model. -/
def decodeQueryParams (ownerName : String) (fields : List StructField)
    (query : List (String × List String)) : Except GoErr (List GoValue) :=
  if query = [] then .ok (fields.map (fun f => zeroValue f.ftype))
  else decodeQueryFieldsGo ownerName fields query

/-- Equality up to JSON whitespace exhaustion: a body of only JSON
whitespace makes json.Decoder.Decode return io.EOF. -/
def jsonWhitespaceOnly (s : String) : Bool :=
  s.toList.all (fun c => c = ' ' || c = '\t' || c = '\n' || c = '\r')

/-- encode.go DefaultCodec.DecodeBody: a nil body or an immediately
exhausted body yields the zero value without error; otherwise the JSON
decoding function for the request type runs, its failures wrapped as
"decode request: %w". -/
def decodeBody (zero : List GoValue) (jsonDec : String → Except GoErr (List GoValue)) :
    Option String → Except GoErr (List GoValue)
  | none => .ok zero
  | some s =>
    if jsonWhitespaceOnly s then .ok zero
    else
      match jsonDec s with
      | .error e => .error (.wrap "decode request: " e)
      | .ok v => .ok v

/-! ## Request metadata decoding and validation (gen-ts_test.go part) -/

/-- The parsed metaTag record (found is the Option). -/
structure MetaTag where
  name : String
  omitempty : Bool
  skip : Bool
deriving DecidableEq, Repr

/-- parseMetaTag: tag "-" means found-and-skip; the first comma part is the
name (space-trimmed, must be non-empty), later parts may carry omitempty;
path tags additionally require a snake_case name. -/
def parseMetaTag (ownerName : String) (f : StructField) (key : String)
    (requireSnakeCase : Bool) : Except GoErr (Option MetaTag) :=
  match alookup f.tags key with
  | none => .ok none
  | some tag =>
    if tag = "-" then .ok (some { name := "", omitempty := false, skip := true })
    else
      let parts := splitOnChar ',' tag
      let name := goTrimSpace (parts.headD "")
      if name = "" then
        .error (.errorf s!"{ownerName}.{f.name}: {key} tag must specify a name")
      else
        let omitFlag := (parts.drop 1).any (· = "omitempty")
        if requireSnakeCase ∧ ¬ isSnakeCase name then
          .error (.errorf s!"{ownerName}.{f.name}: {key} tag \"{name}\" must be snake_case")
        else
          .ok (some { name := name, omitempty := omitFlag, skip := false })

/-- The incoming transport request, as the pipeline observes it: the header
multi-map is a total function (Values of an absent header is []), the body
is nil or raw text, and the Path Parameter Bag sits in the context. -/
structure Request where
  method : String
  path : String
  query : List (String × List String)
  headers : String → List String
  body : Option String
  ctxPathParams : List (String × String)

/-- The per-field body of the decodeRequestMeta loop. -/
def decodeMetaField (ownerName : String) (f : StructField) (r : Request) :
    Except GoErr GoValue :=
  if ¬ f.exported then .ok (zeroValue f.ftype)
  else if f.anonymousStruct then .ok (zeroValue f.ftype)
  else
    match parseMetaTag ownerName f "path" true with
    | .error e => .error e
    | .ok pathTag =>
      match parseMetaTag ownerName f "header" false with
      | .error e => .error e
      | .ok headerTag =>
        if pathTag.isSome ∧ headerTag.isSome then
          .error (.errorf s!"{ownerName}.{f.name}: cannot use both path and header tags")
        else
          match pathTag with
          | some pt =>
            if pt.skip then .ok (zeroValue f.ftype)
            else
              match alookup r.ctxPathParams pt.name with
              | none => .error (.errorf s!"missing path param \"{pt.name}\"")
              | some val =>
                match setFromStrings f.ftype (zeroValue f.ftype) [val] with
                | .error e => .error (.wrap s!"decode path {pt.name}: " e)
                | .ok v => .ok v
          | none =>
            match headerTag with
            | some ht =>
              if ht.skip then .ok (zeroValue f.ftype)
              else
                match r.headers ht.name with
                | [] =>
                  if ht.omitempty then .ok (zeroValue f.ftype)
                  else .error (.errorf s!"missing header \"{ht.name}\"")
                | vals =>
                  match setFromStrings f.ftype (zeroValue f.ftype) vals with
                  | .error e => .error (.wrap s!"decode header {ht.name}: " e)
                  | .ok v => .ok v
            | none => .ok (zeroValue f.ftype)

/-- The decodeRequestMeta field loop. -/
def decodeMetaFields (ownerName : String) : List StructField → Request →
    Except GoErr (List GoValue)
  | [], _ => .ok []
  | f :: fs, r =>
    match decodeMetaField ownerName f r with
    | .error e => .error e
    | .ok v =>
      match decodeMetaFields ownerName fs r with
      | .error e => .error e
      | .ok rest => .ok (v :: rest)

/-- gen-ts_test.go decodeRequestMeta: fill path-tagged fields from the Path
Parameter Bag and header-tagged fields from the header multi-map; the meta
type is a struct in the model. -/
def decodeRequestMeta (ownerName : String) (fields : List StructField)
    (r : Request) : Except GoErr (List GoValue) :=
  decodeMetaFields ownerName fields r

/-- The validateMetaType field loop: tracks path params of the route and
the path/header tag names already seen. -/
def validateMetaFields (ownerName : String) (pathParams : List String) :
    List StructField → List String → List String → Except GoErr Unit
  | [], _, _ => .ok ()
  | f :: fs, seenPath, seenHeader =>
    if ¬ f.exported then validateMetaFields ownerName pathParams fs seenPath seenHeader
    else if f.anonymousStruct then validateMetaFields ownerName pathParams fs seenPath seenHeader
    else
      match parseMetaTag ownerName f "path" true with
      | .error e => .error e
      | .ok pathTag =>
        match parseMetaTag ownerName f "header" false with
        | .error e => .error e
        | .ok headerTag =>
          if pathTag.isSome ∧ headerTag.isSome then
            .error (.errorf s!"{ownerName}.{f.name}: cannot use both path and header tags")
          else
            match pathTag with
            | some pt =>
              if pt.skip then validateMetaFields ownerName pathParams fs seenPath seenHeader
              else if ¬ pathParams.contains pt.name then
                .error (.errorf s!"path tag \"{pt.name}\" does not match route")
              else if seenPath.contains pt.name then
                .error (.errorf s!"path tag \"{pt.name}\" is used more than once")
              else validateMetaFields ownerName pathParams fs (seenPath ++ [pt.name]) seenHeader
            | none =>
              match headerTag with
              | some ht =>
                if ht.skip then validateMetaFields ownerName pathParams fs seenPath seenHeader
                else if seenHeader.contains ht.name then
                  .error (.errorf s!"header tag \"{ht.name}\" is used more than once")
                else validateMetaFields ownerName pathParams fs seenPath (seenHeader ++ [ht.name])
              | none => validateMetaFields ownerName pathParams fs seenPath seenHeader

/-- gen-ts_test.go validateMetaType: a nil meta type passes; otherwise the
route pattern must parse and every path tag must name one of its params,
with no tag name used twice and no field carrying both tags. -/
def validateMetaType (ownerName : String) (metaFields : Option (List StructField))
    (path : String) : Except GoErr Unit :=
  match metaFields with
  | none => .ok ()
  | some fields =>
    match parseRoutePattern path with
    | .error e => .error (.errorf e)
    | .ok pattern => validateMetaFields ownerName pattern.params fields [] []

/-! ## Typed handler pipeline (handler.go) -/

/-- What was written to the response: an error response through
EncodeError, or a success through Encode (Content-Type json, explicit
codec status when non-zero, else the implicit 200). -/
inductive RespOut (ρ : Type)
  | errorResp (er : ErrorResponse)
  | success (status : Int) (res : ρ)

/-- Whether and with what the typed handler was invoked. -/
inductive HCall (α : Type)
  | notCalled
  | calledWith (a : α)

/-- The observable outcome of one request through an adapted handler. -/
structure PipeOut (α ρ : Type) where
  response : RespOut ρ
  handlerCall : HCall α

/-- handler.go adaptHandler over the default codec: query decode for GET,
body decode otherwise; a decode failure is encoded as StatusError 400 and
the handler is never invoked; a handler error goes to EncodeError; encode
failures (transport faults) are outside the model. -/
def adaptHandler {ρ : Type} (cStatus : Int) (ownerName : String)
    (fields : List StructField) (jsonDec : String → Except GoErr (List GoValue))
    (handler : List GoValue → Except GoErr ρ) (r : Request) :
    PipeOut (List GoValue) ρ :=
  let dec :=
    if r.method = "GET" then decodeQueryParams ownerName fields r.query
    else decodeBody (fields.map (fun f => zeroValue f.ftype)) jsonDec r.body
  match dec with
  | .error e =>
    { response := .errorResp (encodeError (.statusErr 400 e)), handlerCall := .notCalled }
  | .ok req =>
    match handler req with
    | .error err => { response := .errorResp (encodeError err), handlerCall := .calledWith req }
    | .ok res =>
      { response := .success (if cStatus ≠ 0 then cStatus else 200) res
        handlerCall := .calledWith req }

/-- handler.go adaptHandlerWithMeta: same as adaptHandler but the metadata
struct is decoded after a successful primary decode, failing the request
with a 400 StatusError when metadata decoding fails. -/
def adaptHandlerWithMeta {ρ : Type} (cStatus : Int) (ownerName : String)
    (fields : List StructField) (metaOwnerName : String)
    (metaFields : List StructField)
    (jsonDec : String → Except GoErr (List GoValue))
    (handler : List GoValue → List GoValue → Except GoErr ρ) (r : Request) :
    PipeOut (List GoValue × List GoValue) ρ :=
  let dec :=
    if r.method = "GET" then decodeQueryParams ownerName fields r.query
    else decodeBody (fields.map (fun f => zeroValue f.ftype)) jsonDec r.body
  let withMeta : Except GoErr (List GoValue × List GoValue) :=
    match dec with
    | .error e => .error e
    | .ok req =>
      match decodeRequestMeta metaOwnerName metaFields r with
      | .error e => .error e
      | .ok meta => .ok (req, meta)
  match withMeta with
  | .error e =>
    { response := .errorResp (encodeError (.statusErr 400 e)), handlerCall := .notCalled }
  | .ok (req, meta) =>
    match handler req meta with
    | .error err =>
      { response := .errorResp (encodeError err), handlerCall := .calledWith (req, meta) }
    | .ok res =>
      { response := .success (if cStatus ≠ 0 then cStatus else 200) res
        handlerCall := .calledWith (req, meta) }

/-! ## Registration (endpoint.go RegisterHandler / RegisterHandlerM) -/

/-- meta.go EndpointMeta, with types identified by name. -/
structure MetaRec where
  method : String
  path : String
  reqType : String
  metaType : Option String
  resType : String
  consumes : List String
  produces : List String
deriving DecidableEq, Repr

/-- The root EndpointGroup collections every registration appends to, plus
the seal flag buildHandler sets. -/
structure RootState where
  handlers : List Ep
  metas : List MetaRec
  sealed : Bool
deriving DecidableEq, Repr

/-- endpoint.go RegisterHandler: a sealed root logs and returns without
touching any state; otherwise the endpoint (path prefixed by its group,
handler already adapted) and its metadata record are appended to the root.
The typed middleware chain and codec are already folded into the trace. -/
def registerHandler (st : RootState) (groupPrefixPath : String)
    (groupChain : List (List MW)) (method path : String) (hTrace : Trace)
    (reqType resType : String) (consumes produces : List String) : RootState :=
  if st.sealed then st
  else
    { st with
      handlers := st.handlers ++ [⟨groupPrefixPath ++ path, method, hTrace, groupChain⟩]
      metas := st.metas ++
        [⟨method, groupPrefixPath ++ path, reqType, none, resType, consumes, produces⟩] }

/-- endpoint.go RegisterHandlerM: as registerHandler, but the metadata
shape is validated against the full path first; on a validation error the
problem is only logged and the registration is dropped with no state
change. -/
def registerHandlerM (st : RootState) (groupPrefixPath : String)
    (groupChain : List (List MW)) (method path : String) (hTrace : Trace)
    (reqType : String) (metaOwnerName : String)
    (metaFields : Option (List StructField)) (resType : String)
    (consumes produces : List String) : RootState :=
  if st.sealed then st
  else
    let full := groupPrefixPath ++ path
    match validateMetaType metaOwnerName metaFields full with
    | .error _ => st
    | .ok _ =>
      { st with
        handlers := st.handlers ++ [⟨full, method, hTrace, groupChain⟩]
        metas := st.metas ++
          [⟨method, full, reqType, some metaOwnerName, resType, consumes, produces⟩] }

/-! ## Middleware ordering facts

The collected middleware list is paired with its collection indices
(`List.enum`), so that provenance — the position in the leaf-to-root
collection — survives sorting.  On index-paired entries the priority-only
comparison of the code and its lexicographic (priority, index) refinement
produce the same insertion sort, because the indices strictly increase
along the collected list; the lexicographic sort is totally ordered, which
turns stable sortedness into a pairwise statement about the execution
order. -/

/-- The code's comparison (priority only), lifted to indexed entries. -/
def pairPrioLE (a b : Nat × MW) : Prop := a.2.priority ≤ b.2.priority

instance : DecidableRel pairPrioLE := fun x y =>
  inferInstanceAs (Decidable (x.2.priority ≤ y.2.priority))

/-- The lexicographic (priority, collection index) order. -/
def pairLexLE (a b : Nat × MW) : Prop :=
  a.2.priority < b.2.priority ∨ (a.2.priority = b.2.priority ∧ a.1 ≤ b.1)

instance : DecidableRel pairLexLE := fun x y =>
  inferInstanceAs (Decidable (x.2.priority < y.2.priority
    ∨ (x.2.priority = y.2.priority ∧ x.1 ≤ y.1)))

instance : IsTotal (Nat × MW) pairLexLE := by
  constructor
  intro a b
  rcases lt_trichotomy a.2.priority b.2.priority with h | h | h
  · exact Or.inl (Or.inl h)
  · rcases Nat.le_total a.1 b.1 with hi | hi
    · exact Or.inl (Or.inr ⟨h, hi⟩)
    · exact Or.inr (Or.inr ⟨h.symm, hi⟩)
  · exact Or.inr (Or.inl h)

instance : IsTrans (Nat × MW) pairLexLE := by
  constructor
  intro a b c hab hbc
  rcases hab with hab | ⟨hab, hab'⟩
  · rcases hbc with hbc | ⟨hbc, _⟩
    · exact Or.inl (hab.trans hbc)
    · exact Or.inl (lt_of_lt_of_eq hab hbc)
  · rcases hbc with hbc | ⟨hbc, hbc'⟩
    · exact Or.inl (lt_of_eq_of_lt hab hbc)
    · exact Or.inr ⟨hab.trans hbc, hab'.trans hbc'⟩

/-- On a tail whose indices all exceed the inserted entry's index, the
priority-only insertion point and the lexicographic insertion point
coincide. -/
theorem orderedInsert_prio_eq_lex (a : Nat × MW) :
    ∀ t : List (Nat × MW), (∀ b ∈ t, a.1 < b.1) →
      t.orderedInsert pairPrioLE a = t.orderedInsert pairLexLE a := by
  intro t
  induction t with
  | nil => intro _; rfl
  | cons b bs ih =>
    intro h
    have hab : a.1 < b.1 := h b (List.mem_cons_self b bs)
    by_cases hp : pairPrioLE a b
    · have hl : pairLexLE a b := by
        rcases lt_or_eq_of_le hp with h' | h'
        · exact Or.inl h'
        · exact Or.inr ⟨h', Nat.le_of_lt hab⟩
      simp [List.orderedInsert, hp, hl]
    · have hl : ¬ pairLexLE a b := by
        intro hc
        rcases hc with hc | ⟨hc, _⟩
        · exact hp (le_of_lt hc)
        · exact hp (le_of_eq hc)
      simp only [List.orderedInsert, if_neg hp, if_neg hl]
      rw [ih (fun c hc => h c (List.mem_cons_of_mem b hc))]

/-- On a list with strictly increasing indices, sorting by priority only
equals sorting lexicographically by (priority, index). -/
theorem insertionSort_prio_eq_lex :
    ∀ l : List (Nat × MW), List.Pairwise (fun a b => a.1 < b.1) l →
      List.insertionSort pairPrioLE l = List.insertionSort pairLexLE l := by
  intro l
  induction l with
  | nil => intro _; rfl
  | cons a t ih =>
    intro h
    rcases List.pairwise_cons.mp h with ⟨ha, ht⟩
    show (List.insertionSort pairPrioLE t).orderedInsert pairPrioLE a
        = (List.insertionSort pairLexLE t).orderedInsert pairLexLE a
    rw [ih ht]
    exact orderedInsert_prio_eq_lex a _
      (fun b hb => ha b ((List.mem_insertionSort pairLexLE).mp hb))

/-- The collection indices strictly increase along any enumerated list. -/
theorem pairwise_fst_lt_enum (l : List MW) :
    List.Pairwise (fun a b : Nat × MW => a.1 < b.1) l.enum := by
  have h := List.pairwise_lt_range l.length
  rw [← List.enum_map_fst l, List.pairwise_map] at h
  exact h

/-- The order in which two wrappers run on request entry: the outer one
has strictly higher priority, or equal priority and a strictly larger
(closer to the root) collection index. -/
def outerRel (a b : Nat × MW) : Prop :=
  b.2.priority < a.2.priority ∨ (b.2.priority = a.2.priority ∧ b.1 < a.1)

/-- The indexed sorted list, reversed into execution-entry order, is
pairwise governed by outerRel. -/
theorem sorted_enum_outerRel (l : List MW) :
    List.Pairwise outerRel
      ((List.insertionSort pairLexLE l.enum).reverse) := by
  have hsorted : List.Pairwise pairLexLE (List.insertionSort pairLexLE l.enum) :=
    List.sorted_insertionSort pairLexLE l.enum
  have hperm : (List.insertionSort pairLexLE l.enum).Perm l.enum :=
    List.perm_insertionSort pairLexLE l.enum
  have hnodupfst : ((List.insertionSort pairLexLE l.enum).map Prod.fst).Nodup := by
    have : ((List.insertionSort pairLexLE l.enum).map Prod.fst).Perm
        (l.enum.map Prod.fst) := hperm.map Prod.fst
    rw [this.nodup_iff, List.enum_map_fst]
    exact List.nodup_range l.length
  have hne : List.Pairwise (fun a b : Nat × MW => a.1 ≠ b.1)
      (List.insertionSort pairLexLE l.enum) := by
    rw [List.Nodup, List.pairwise_map] at hnodupfst
    exact hnodupfst
  have hboth := hsorted.and hne
  rw [List.pairwise_reverse]
  refine hboth.imp ?_
  intro a b hab
  rcases hab with ⟨hlex | ⟨heq, hle⟩, hne'⟩
  · exact Or.inl hlex
  · exact Or.inr ⟨heq, lt_of_le_of_ne hle hne'⟩

/-- The indexed sorted list projects onto exactly the list the code sorts
and applies. -/
theorem sorted_enum_map_snd (l : List MW) :
    (List.insertionSort pairLexLE l.enum).map Prod.snd
      = List.insertionSort mwLE l := by
  rw [← insertionSort_prio_eq_lex l.enum (pairwise_fst_lt_enum l)]
  have h := List.map_insertionSort pairPrioLE mwLE Prod.snd l.enum
    (fun _ _ _ _ => Iff.rfl)
  rw [h, List.enum_map_snd]

/-! ## Dispatch table contents

`insertEp` is the effect one successfully processed endpoint has on the
build state; conflicts never occur along a successful run, so its behavior
there (skip) is never exercised.  `stateOf` replays a prefix, and the spec
functions below describe the resulting tables directly in terms of the
endpoint list. -/

/-- The state effect of one successfully processed endpoint (total: a
conflicting or unparsable endpoint, which would abort the real build,
leaves the state unchanged here). -/
def insertEp (st : BuildSt) (e : Ep) : BuildSt :=
  match parseRoutePattern e.path with
  | .error _ => st
  | .ok pat =>
    let h := composedOf e
    if pat.params ≠ [] then
      match pfind st.patterns pat.shape with
      | some q =>
        if q.1.path = pat.path then
          { st with patterns := addPatternMethod st.patterns pat.shape e.method h }
        else st
      | none => { st with patterns := st.patterns ++ [(pat, [(e.method, h)])] }
    else
      match alookup st.statics pat.path with
      | some ms =>
        { st with statics := updAssoc st.statics pat.path (ms ++ [(e.method, composedOf e)]) }
      | none => { st with statics := st.statics ++ [(pat.path, [(e.method, composedOf e)])] }

/-- The build state after a list of successful endpoint insertions. -/
def stateOf (L : List Ep) : BuildSt :=
  L.foldl insertEp ⟨[], []⟩

/-- The static method table at path P, described from the endpoint list. -/
def staticsSpec (L : List Ep) (P : String) : List (String × Trace) :=
  L.filterMap (fun e =>
    match parseRoutePattern e.path with
    | .ok p => if p.params = [] ∧ p.path = P then some (e.method, composedOf e) else none
    | .error _ => none)

/-- The compiled patterns in registration order, one per canonical shape
(the first registered pattern of each shape). -/
def firstPats (L : List Ep) : List RoutePattern :=
  L.foldl (fun acc e =>
    match parseRoutePattern e.path with
    | .ok p =>
      if p.params ≠ [] ∧ ((acc.find? (fun q => q.shape = p.shape)).isNone = true)
      then acc ++ [p] else acc
    | .error _ => acc) []

/-- The method table of the compiled pattern with shape S and concrete
path P0, described from the endpoint list. -/
def patMethodsSpec (L : List Ep) (S P0 : String) : List (String × Trace) :=
  L.filterMap (fun e =>
    match parseRoutePattern e.path with
    | .ok p =>
      if p.params ≠ [] ∧ p.shape = S ∧ p.path = P0 then some (e.method, composedOf e)
      else none
    | .error _ => none)

/-- The full pattern table, described from the endpoint list. -/
def patternsSpec (L : List Ep) : List (RoutePattern × List (String × Trace)) :=
  (firstPats L).map (fun q => (q, patMethodsSpec L q.shape q.path))

/-- All methods registered under a normalized concrete path. -/
def methodsForPath (L : List Ep) (P : String) : List String :=
  L.filterMap (fun e =>
    match parseRoutePattern e.path with
    | .ok p => if p.path = P then some e.method else none
    | .error _ => none)

/-- Two registrations in conflict: same method and normalized path
(duplicate route), or two parameterized paths of equal shape and
different concrete path (ambiguous route). -/
def epConflict (a b : Ep) : Prop :=
  match parseRoutePattern a.path, parseRoutePattern b.path with
  | .ok pa, .ok pb =>
    (a.method = b.method ∧ pa.path = pb.path)
      ∨ (pa.params ≠ [] ∧ pb.params ≠ [] ∧ pa.shape = pb.shape ∧ pa.path ≠ pb.path)
  | _, _ => False

instance (a b : Ep) : Decidable (epConflict a b) := by
  unfold epConflict
  cases parseRoutePattern a.path <;> cases parseRoutePattern b.path <;> exact inferInstance

/-! ### Association list toolbox -/

theorem alookup_append {β : Type} (l₁ l₂ : List (String × β)) (k : String) :
    alookup (l₁ ++ l₂) k
      = match alookup l₁ k with
        | some v => some v
        | none => alookup l₂ k := by
  induction l₁ with
  | nil => rfl
  | cons p rest ih =>
    by_cases h : p.1 = k
    · simp [alookup, h]
    · simp [alookup, h, ih]

theorem alookup_updAssoc_self {β : Type} (l : List (String × β)) (k : String)
    (nv : β) (h : (alookup l k).isSome) :
    alookup (updAssoc l k nv) k = some nv := by
  induction l with
  | nil => simp [alookup] at h
  | cons p rest ih =>
    by_cases hk : p.1 = k
    · simp [updAssoc, alookup, hk]
    · simp only [alookup, if_neg hk] at h
      simp [updAssoc, alookup, hk, ih h]

theorem alookup_updAssoc_ne {β : Type} (l : List (String × β)) (k k' : String)
    (nv : β) (h : k' ≠ k) :
    alookup (updAssoc l k nv) k' = alookup l k' := by
  induction l with
  | nil => rfl
  | cons p rest ih =>
    obtain ⟨k₀, v⟩ := p
    by_cases hk : k₀ = k
    · subst hk
      have hne : ¬ k₀ = k' := fun hc => h (hc.symm)
      simp [updAssoc, alookup, hne]
    · simp only [updAssoc, if_neg hk]
      by_cases hk' : k₀ = k'
      · simp [alookup, hk']
      · simp [alookup, hk', ih]

theorem alookup_isSome_iff {β : Type} (l : List (String × β)) (k : String) :
    (alookup l k).isSome ↔ k ∈ l.map Prod.fst := by
  induction l with
  | nil => simp [alookup]
  | cons p rest ih =>
    obtain ⟨k₀, v⟩ := p
    by_cases hk : k₀ = k
    · simp [alookup, hk]
    · simp only [alookup, if_neg hk, List.map_cons, List.mem_cons, ih]
      constructor
      · exact Or.inr
      · rintro (hc | hc)
        · exact absurd hc.symm hk
        · exact hc

theorem alookup_eq_none_iff {β : Type} (l : List (String × β)) (k : String) :
    alookup l k = none ↔ k ∉ l.map Prod.fst := by
  rw [← alookup_isSome_iff]
  cases alookup l k <;> simp

theorem alookup_map_snd {β γ : Type} (l : List (String × β)) (g : String → β → γ)
    (k : String) :
    alookup (l.map (fun p => (p.1, g p.1 p.2))) k = (alookup l k).map (g k) := by
  induction l with
  | nil => rfl
  | cons p rest ih =>
    by_cases hk : p.1 = k
    · subst hk; simp [alookup]
    · simp [alookup, hk, ih]

/-! ### The concrete path determines the whole compiled pattern -/

theorem parseRouteCore_path {y : String} {p : RoutePattern}
    (h : parseRouteCore y = .ok p) : p.path = y := by
  unfold parseRouteCore at h
  by_cases hy : y = "/"
  · rw [if_pos hy] at h
    cases h
    rfl
  · rw [if_neg hy] at h
    simp only [] at h
    rcases hps : parseSegments y (splitOnChar '/' (goTrimSlashes y)) [] [] [] with e | pr
    · rw [hps] at h
      cases h
    · rw [hps] at h
      obtain ⟨params, shapeParts⟩ := pr
      cases h
      rfl

theorem parseRoutePattern_path {x : String} {p : RoutePattern}
    (h : parseRoutePattern x = .ok p) : p.path = normalizeRoutePath x :=
  parseRouteCore_path h

/-- Two route strings whose compiled patterns share a concrete path
compile to the same pattern. -/
theorem parse_determined {x y : String} {pa pb : RoutePattern}
    (ha : parseRoutePattern x = .ok pa) (hb : parseRoutePattern y = .ok pb)
    (hpath : pa.path = pb.path) : pa = pb := by
  have hx := parseRoutePattern_path ha
  have hy := parseRoutePattern_path hb
  have : normalizeRoutePath x = normalizeRoutePath y := by rw [← hx, ← hy, hpath]
  unfold parseRoutePattern at ha hb
  rw [this] at ha
  rw [ha] at hb
  cases hb
  rfl

/-! ### Replaying registrations: table-content lemmas -/

theorem stateOf_append (L : List Ep) (e : Ep) :
    stateOf (L ++ [e]) = insertEp (stateOf L) e := by
  unfold stateOf
  rw [List.foldl_append]
  rfl

theorem staticsSpec_append (L : List Ep) (e : Ep) (P : String) :
    staticsSpec (L ++ [e]) P = staticsSpec L P ++ staticsSpec [e] P := by
  unfold staticsSpec
  rw [List.filterMap_append]

theorem patMethodsSpec_append (L : List Ep) (e : Ep) (S P0 : String) :
    patMethodsSpec (L ++ [e]) S P0 = patMethodsSpec L S P0 ++ patMethodsSpec [e] S P0 := by
  unfold patMethodsSpec
  rw [List.filterMap_append]

theorem firstPats_append (L : List Ep) (e : Ep) :
    firstPats (L ++ [e]) =
      match parseRoutePattern e.path with
      | .ok p =>
        if p.params ≠ [] ∧ (((firstPats L).find? (fun q => q.shape = p.shape)).isNone = true)
        then firstPats L ++ [p] else firstPats L
      | .error _ => firstPats L := by
  unfold firstPats
  rw [List.foldl_append]
  rfl

theorem firstPats_append_error (L : List Ep) (e : Ep) {msg : String}
    (hparse : parseRoutePattern e.path = .error msg) :
    firstPats (L ++ [e]) = firstPats L := by
  rw [firstPats_append, hparse]

theorem firstPats_append_ok (L : List Ep) (e : Ep) {p : RoutePattern}
    (hparse : parseRoutePattern e.path = .ok p) :
    firstPats (L ++ [e]) =
      if p.params ≠ [] ∧ (((firstPats L).find? (fun q => q.shape = p.shape)).isNone = true)
      then firstPats L ++ [p] else firstPats L := by
  rw [firstPats_append, hparse]

theorem firstPats_complete : ∀ (L : List Ep) {a : Ep}, a ∈ L →
    ∀ {pa : RoutePattern}, parseRoutePattern a.path = .ok pa → pa.params ≠ [] →
    ∃ q, (firstPats L).find? (fun q' => q'.shape = pa.shape) = some q := by
  intro L
  induction L using List.reverseRecOn with
  | nil => intro a ha; cases ha
  | append_singleton L e ih =>
    intro a ha pa hp hpar
    rcases List.mem_append.mp ha with hL | he
    · obtain ⟨q, hq⟩ := ih hL hp hpar
      rcases hparse : parseRoutePattern e.path with msg | p
      · rw [firstPats_append_error L e hparse]
        exact ⟨q, hq⟩
      · rw [firstPats_append_ok L e hparse]
        by_cases hcond : p.params ≠ [] ∧ (((firstPats L).find? (fun q => q.shape = p.shape)).isNone = true)
        · rw [if_pos hcond, List.find?_append, hq]
          exact ⟨q, rfl⟩
        · rw [if_neg hcond]
          exact ⟨q, hq⟩
    · have hae : a = e := by simpa using he
      subst hae
      rw [firstPats_append_ok L a hp]
      by_cases hnone : (((firstPats L).find? (fun q => q.shape = pa.shape)).isNone = true)
      · rw [if_pos ⟨hpar, hnone⟩, List.find?_append,
          Option.isNone_iff_eq_none.mp hnone]
        refine ⟨pa, ?_⟩
        simp [List.find?]
      · rcases hq : (firstPats L).find? (fun q => q.shape = pa.shape) with _ | q
        · rw [hq] at hnone; simp at hnone
        · rw [if_neg (fun hc => hnone hc.2)]
          exact ⟨q, hq⟩

theorem firstPats_sound : ∀ (L : List Ep) {q : RoutePattern}, q ∈ firstPats L →
    ∃ a ∈ L, parseRoutePattern a.path = .ok q ∧ q.params ≠ [] := by
  intro L
  induction L using List.reverseRecOn with
  | nil => intro q hq; cases hq
  | append_singleton L e ih =>
    intro q hq
    rcases hparse : parseRoutePattern e.path with msg | p
    · rw [firstPats_append_error L e hparse] at hq
      obtain ⟨a, haL, h1, h2⟩ := ih hq
      exact ⟨a, List.mem_append_left _ haL, h1, h2⟩
    · rw [firstPats_append_ok L e hparse] at hq
      by_cases hcond : p.params ≠ [] ∧ (((firstPats L).find? (fun q => q.shape = p.shape)).isNone = true)
      · rw [if_pos hcond] at hq
        rcases List.mem_append.mp hq with hL | hsing
        · obtain ⟨a, haL, h1, h2⟩ := ih hL
          exact ⟨a, List.mem_append_left _ haL, h1, h2⟩
        · have : q = p := by simpa using hsing
          subst this
          exact ⟨e, List.mem_append_right _ (by simp), hparse, hcond.1⟩
      · rw [if_neg hcond] at hq
        obtain ⟨a, haL, h1, h2⟩ := ih hq
        exact ⟨a, List.mem_append_left _ haL, h1, h2⟩

theorem firstPats_shapes_nodup : ∀ L : List Ep,
    List.Pairwise (fun q q' : RoutePattern => q.shape ≠ q'.shape) (firstPats L) := by
  intro L
  induction L using List.reverseRecOn with
  | nil => exact List.Pairwise.nil
  | append_singleton L e ih =>
    rcases hparse : parseRoutePattern e.path with msg | p
    · rw [firstPats_append_error L e hparse]
      exact ih
    · rw [firstPats_append_ok L e hparse]
      by_cases hcond : p.params ≠ [] ∧ (((firstPats L).find? (fun q => q.shape = p.shape)).isNone = true)
      · rw [if_pos hcond]
        rw [List.pairwise_append]
        refine ⟨ih, List.pairwise_singleton _ _, ?_⟩
        intro q hqL q' hq'
        have hq' : q' = p := by simpa using hq'
        subst hq'
        have hnone := List.find?_eq_none.mp (Option.isNone_iff_eq_none.mp hcond.2) q hqL
        simpa using hnone
      · rw [if_neg hcond]
        exact ih

theorem pfind_patternsSpec (L : List Ep) (S : String) :
    pfind (patternsSpec L) S
      = ((firstPats L).find? (fun q => q.shape = S)).map
          (fun q => (q, patMethodsSpec L q.shape q.path)) := by
  unfold pfind patternsSpec
  rw [List.find?_map]
  rfl

theorem insertEp_statics (st : BuildSt) (e : Ep) :
    (insertEp st e).statics =
      match parseRoutePattern e.path with
      | .error _ => st.statics
      | .ok pat =>
        if pat.params ≠ [] then st.statics
        else
          match alookup st.statics pat.path with
          | some ms => updAssoc st.statics pat.path (ms ++ [(e.method, composedOf e)])
          | none => st.statics ++ [(pat.path, [(e.method, composedOf e)])] := by
  unfold insertEp
  cases parseRoutePattern e.path with
  | error msg => rfl
  | ok pat =>
    dsimp only
    by_cases hpar : pat.params ≠ []
    · rw [if_pos hpar, if_pos hpar]
      cases pfind st.patterns pat.shape with
      | none => rfl
      | some q =>
        dsimp only
        by_cases hq : q.1.path = pat.path
        · rw [if_pos hq]
        · rw [if_neg hq]
    · rw [if_neg hpar, if_neg hpar]
      cases alookup st.statics pat.path with
      | none => rfl
      | some ms => rfl

theorem insertEp_patterns (st : BuildSt) (e : Ep) :
    (insertEp st e).patterns =
      match parseRoutePattern e.path with
      | .error _ => st.patterns
      | .ok pat =>
        if pat.params ≠ [] then
          match pfind st.patterns pat.shape with
          | some q =>
            if q.1.path = pat.path then
              addPatternMethod st.patterns pat.shape e.method (composedOf e)
            else st.patterns
          | none => st.patterns ++ [(pat, [(e.method, composedOf e)])]
        else st.patterns := by
  unfold insertEp
  cases parseRoutePattern e.path with
  | error msg => rfl
  | ok pat =>
    dsimp only
    by_cases hpar : pat.params ≠ []
    · rw [if_pos hpar, if_pos hpar]
      cases pfind st.patterns pat.shape with
      | none => rfl
      | some q =>
        dsimp only
        by_cases hq : q.1.path = pat.path
        · rw [if_pos hq, if_pos hq]
        · rw [if_neg hq, if_neg hq]
    · rw [if_neg hpar, if_neg hpar]
      cases alookup st.statics pat.path with
      | none => rfl
      | some ms => rfl

theorem staticsSpec_singleton (e : Ep) (P : String) :
    staticsSpec [e] P =
      match parseRoutePattern e.path with
      | .ok p => if p.params = [] ∧ p.path = P then [(e.method, composedOf e)] else []
      | .error _ => [] := by
  unfold staticsSpec
  simp only [List.filterMap_cons, List.filterMap_nil]
  cases parseRoutePattern e.path with
  | error msg => rfl
  | ok p =>
    dsimp only
    by_cases hc : p.params = [] ∧ p.path = P
    · rw [if_pos hc]
      simp [hc]
    · rw [if_neg hc]
      simp [hc]

theorem patMethodsSpec_singleton (e : Ep) (S P0 : String) :
    patMethodsSpec [e] S P0 =
      match parseRoutePattern e.path with
      | .ok p =>
        if p.params ≠ [] ∧ p.shape = S ∧ p.path = P0 then [(e.method, composedOf e)] else []
      | .error _ => [] := by
  unfold patMethodsSpec
  simp only [List.filterMap_cons, List.filterMap_nil]
  cases parseRoutePattern e.path with
  | error msg => rfl
  | ok p =>
    dsimp only
    by_cases hc : p.params ≠ [] ∧ p.shape = S ∧ p.path = P0
    · rw [if_pos hc]
      simp [hc]
    · rw [if_neg hc]
      simp [hc]

/-- The static table of the replayed build state holds, under each path,
exactly the methods (with composed handlers) registered at that path. -/
theorem statics_stateOf : ∀ (L : List Ep) (P : String),
    alookup (stateOf L).statics P
      = if staticsSpec L P = [] then none else some (staticsSpec L P) := by
  intro L
  induction L using List.reverseRecOn with
  | nil => intro P; rfl
  | append_singleton L e ih =>
    intro P
    rw [stateOf_append]
    have hstat := insertEp_statics (stateOf L) e
    have hsing := staticsSpec_singleton e P
    rcases hparse : parseRoutePattern e.path with msg | pat
    · rw [hparse] at hstat hsing
      dsimp only at hstat hsing
      have htotal : staticsSpec (L ++ [e]) P = staticsSpec L P := by
        rw [staticsSpec_append, hsing, List.append_nil]
      rw [hstat, htotal]
      exact ih P
    · rw [hparse] at hstat hsing
      dsimp only at hstat hsing
      by_cases hpar : pat.params = []
      case neg =>
        rw [if_pos hpar] at hstat
        have htotal : staticsSpec (L ++ [e]) P = staticsSpec L P := by
          rw [staticsSpec_append, hsing, if_neg (fun hc => hpar hc.1), List.append_nil]
        rw [hstat, htotal]
        exact ih P
      case pos =>
        rw [if_neg (fun hc => hc hpar)] at hstat
        rcases hlook : alookup (stateOf L).statics pat.path with _ | ms
        · -- first registration at this static path
          rw [hlook] at hstat
          dsimp only at hstat
          have hspecnil : staticsSpec L pat.path = [] := by
            have h0 := ih pat.path
            rw [hlook] at h0
            by_cases hz : staticsSpec L pat.path = []
            · exact hz
            · rw [if_neg hz] at h0; cases h0
          by_cases hP : pat.path = P
          · subst hP
            have htotal : staticsSpec (L ++ [e]) pat.path = [(e.method, composedOf e)] := by
              rw [staticsSpec_append, hsing, if_pos ⟨hpar, rfl⟩, hspecnil, List.nil_append]
            rw [hstat, alookup_append, hlook, htotal]
            simp [alookup]
          · have htotal : staticsSpec (L ++ [e]) P = staticsSpec L P := by
              rw [staticsSpec_append, hsing, if_neg (fun hc => hP hc.2), List.append_nil]
            rw [hstat, alookup_append, ih P, htotal]
            by_cases hz : staticsSpec L P = []
            · rw [if_pos hz]
              dsimp only
              simp [alookup, hP]
            · rw [if_neg hz]
        · -- further method on an existing static path
          rw [hlook] at hstat
          dsimp only at hstat
          have hms : ms = staticsSpec L pat.path := by
            have h0 := ih pat.path
            rw [hlook] at h0
            by_cases hz : staticsSpec L pat.path = []
            · rw [if_pos hz] at h0; cases h0
            · rw [if_neg hz] at h0
              exact Option.some_injective _ h0
          by_cases hP : pat.path = P
          · subst hP
            have htotal : staticsSpec (L ++ [e]) pat.path
                = staticsSpec L pat.path ++ [(e.method, composedOf e)] := by
              rw [staticsSpec_append, hsing, if_pos ⟨hpar, rfl⟩]
            rw [hstat, alookup_updAssoc_self _ _ _ (by rw [hlook]; rfl), htotal, hms]
            rw [if_neg (by simp)]
          · have htotal : staticsSpec (L ++ [e]) P = staticsSpec L P := by
              rw [staticsSpec_append, hsing, if_neg (fun hc => hP hc.2), List.append_nil]
            rw [hstat, alookup_updAssoc_ne _ _ _ _ (fun hc => hP hc.symm), ih P, htotal]

theorem patMethodsSpec_sound {L : List Ep} {S P0 : String} {x : String × Trace}
    (hx : x ∈ patMethodsSpec L S P0) :
    ∃ a ∈ L, ∃ pa, parseRoutePattern a.path = .ok pa ∧ pa.params ≠ []
      ∧ pa.shape = S ∧ pa.path = P0 ∧ x = (a.method, composedOf a) := by
  obtain ⟨a, haL, hfa⟩ := List.mem_filterMap.mp hx
  rcases hp : parseRoutePattern a.path with msg | pa
  · rw [hp] at hfa
    cases hfa
  · rw [hp] at hfa
    dsimp only at hfa
    by_cases hc : pa.params ≠ [] ∧ pa.shape = S ∧ pa.path = P0
    · rw [if_pos hc] at hfa
      cases hfa
      exact ⟨a, haL, pa, hp, hc.1, hc.2.1, hc.2.2, rfl⟩
    · rw [if_neg hc] at hfa
      cases hfa

theorem staticsSpec_sound {L : List Ep} {P : String} {x : String × Trace}
    (hx : x ∈ staticsSpec L P) :
    ∃ a ∈ L, ∃ pa, parseRoutePattern a.path = .ok pa ∧ pa.params = []
      ∧ pa.path = P ∧ x = (a.method, composedOf a) := by
  obtain ⟨a, haL, hfa⟩ := List.mem_filterMap.mp hx
  rcases hp : parseRoutePattern a.path with msg | pa
  · rw [hp] at hfa
    cases hfa
  · rw [hp] at hfa
    dsimp only at hfa
    by_cases hc : pa.params = [] ∧ pa.path = P
    · rw [if_pos hc] at hfa
      cases hfa
      exact ⟨a, haL, pa, hp, hc.1, hc.2, rfl⟩
    · rw [if_neg hc] at hfa
      cases hfa

/-- Two compiled patterns of the same shape in the first-occurrence list
are the same entry. -/
theorem firstPats_shape_inj {L : List Ep} {q q' : RoutePattern}
    (hq : q ∈ firstPats L) (hq' : q' ∈ firstPats L) (h : q.shape = q'.shape) :
    q = q' := by
  by_contra hne
  exact (firstPats_shapes_nodup L).forall
    (fun a b hab => (fun hc => hab hc.symm)) hq hq' hne h

/-- The pattern table of the replayed build state is exactly the
first-occurrence pattern list, each entry carrying the methods registered
at its concrete path. -/
theorem patterns_stateOf : ∀ L : List Ep, (stateOf L).patterns = patternsSpec L := by
  intro L
  induction L using List.reverseRecOn with
  | nil => rfl
  | append_singleton L e ih =>
    rw [stateOf_append]
    have hpat := insertEp_patterns (stateOf L) e
    rcases hparse : parseRoutePattern e.path with msg | pat
    · rw [hparse] at hpat
      dsimp only at hpat
      have htotal : patternsSpec (L ++ [e]) = patternsSpec L := by
        unfold patternsSpec
        rw [firstPats_append_error L e hparse]
        refine List.map_congr_left ?_
        intro q _
        have h1 := patMethodsSpec_singleton e q.shape q.path
        rw [hparse] at h1
        dsimp only at h1
        rw [patMethodsSpec_append, h1, List.append_nil]
      rw [hpat, ih, htotal]
    · rw [hparse] at hpat
      dsimp only at hpat
      have hsing := patMethodsSpec_singleton e
      by_cases hpar : pat.params = []
      case pos =>
        rw [if_neg (fun hc => hc hpar)] at hpat
        have htotal : patternsSpec (L ++ [e]) = patternsSpec L := by
          unfold patternsSpec
          rw [firstPats_append_ok L e hparse, if_neg (fun hc => hc.1 hpar)]
          refine List.map_congr_left ?_
          intro q _
          have h1 := hsing q.shape q.path
          rw [hparse] at h1
          dsimp only at h1
          rw [patMethodsSpec_append, h1, if_neg (fun hc => hc.1 hpar), List.append_nil]
        rw [hpat, ih, htotal]
      case neg =>
        rw [if_pos hpar] at hpat
        rcases hfind : (firstPats L).find? (fun q => q.shape = pat.shape) with _ | q0
        · -- a shape not seen before: a fresh pattern entry is appended
          have hpf : pfind (stateOf L).patterns pat.shape = none := by
            rw [ih, pfind_patternsSpec, hfind]
            rfl
          rw [hpf] at hpat
          dsimp only at hpat
          have hspecnil : patMethodsSpec L pat.shape pat.path = [] := by
            by_contra hne
            obtain ⟨x, hx⟩ := List.exists_mem_of_ne_nil _ hne
            obtain ⟨a, haL, pa, hp, hps, hsh, _, _⟩ := patMethodsSpec_sound hx
            obtain ⟨q, hq⟩ := firstPats_complete L haL hp hps
            rw [hsh] at hq
            rw [hq] at hfind
            cases hfind
          rw [hpat, ih]
          unfold patternsSpec
          rw [firstPats_append_ok L e hparse,
            if_pos ⟨hpar, by rw [hfind]; rfl⟩, List.map_append]
          congr 1
          · refine List.map_congr_left ?_
            intro q hq
            have hqshape : ¬ (pat.shape = q.shape) := by
              intro hc
              have := List.find?_eq_none.mp hfind q hq
              simp [hc.symm] at this
            have h1 := hsing q.shape q.path
            rw [hparse] at h1
            dsimp only at h1
            rw [patMethodsSpec_append, h1, if_neg (fun hc => hqshape hc.2.1),
              List.append_nil]
          · have h1 := hsing pat.shape pat.path
            rw [hparse] at h1
            dsimp only at h1
            simp only [List.map_cons, List.map_nil]
            rw [patMethodsSpec_append, h1, if_pos ⟨hpar, rfl, rfl⟩, hspecnil,
              List.nil_append]
        · -- the shape already has a compiled pattern
          have hq0mem : q0 ∈ firstPats L := List.mem_of_find?_eq_some hfind
          have hq0shape : q0.shape = pat.shape := by
            have := List.find?_some hfind
            simpa using this
          have hpf : pfind (stateOf L).patterns pat.shape
              = some (q0, patMethodsSpec L q0.shape q0.path) := by
            rw [ih, pfind_patternsSpec, hfind]
            rfl
          rw [hpf] at hpat
          dsimp only at hpat
          have hfpsame : firstPats (L ++ [e]) = firstPats L := by
            rw [firstPats_append_ok L e hparse, if_neg ?_]
            intro hc
            rw [hfind] at hc
            simp at hc
          by_cases hpath : q0.path = pat.path
          · rw [if_pos hpath] at hpat
            rw [hpat, ih]
            unfold patternsSpec addPatternMethod
            rw [hfpsame, List.map_map]
            refine List.map_congr_left ?_
            intro q hq
            have h1 := hsing q.shape q.path
            rw [hparse] at h1
            dsimp only at h1
            by_cases hqs : q.shape = pat.shape
            · have hqq0 : q = q0 := firstPats_shape_inj hq hq0mem (by rw [hqs, hq0shape])
              subst hqq0
              simp only [Function.comp_apply, if_pos hqs]
              rw [patMethodsSpec_append, h1,
                if_pos ⟨hpar, hqs.symm, by rw [hpath]⟩]
            · simp only [Function.comp_apply, if_neg hqs]
              rw [patMethodsSpec_append, h1,
                if_neg (fun hc => hqs hc.2.1.symm), List.append_nil]
          · rw [if_neg hpath] at hpat
            rw [hpat, ih]
            unfold patternsSpec
            rw [hfpsame]
            refine List.map_congr_left ?_
            intro q hq
            have h1 := hsing q.shape q.path
            rw [hparse] at h1
            dsimp only at h1
            by_cases hqs : q.shape = pat.shape
            · have hqq0 : q = q0 := firstPats_shape_inj hq hq0mem (by rw [hqs, hq0shape])
              subst hqq0
              rw [patMethodsSpec_append, h1,
                if_neg (fun hc => hpath hc.2.2.symm), List.append_nil]
            · rw [patMethodsSpec_append, h1,
                if_neg (fun hc => hqs hc.2.1.symm), List.append_nil]

/-! ### Conflicts abort the build -/

theorem epConflict_of_ok {a b : Ep} {pa pb : RoutePattern}
    (ha : parseRoutePattern a.path = .ok pa) (hb : parseRoutePattern b.path = .ok pb) :
    epConflict a b ↔
      ((a.method = b.method ∧ pa.path = pb.path)
        ∨ (pa.params ≠ [] ∧ pb.params ≠ [] ∧ pa.shape = pb.shape ∧ pa.path ≠ pb.path)) := by
  unfold epConflict
  rw [ha, hb]

theorem epConflict_symm {a b : Ep} (h : epConflict a b) : epConflict b a := by
  unfold epConflict at h ⊢
  rcases ha : parseRoutePattern a.path with m1 | pa <;>
    rcases hb : parseRoutePattern b.path with m2 | pb <;>
      rw [ha, hb] at h
  · exact False.elim h
  · exact False.elim h
  · exact False.elim h
  · have h' : (a.method = b.method ∧ pa.path = pb.path)
        ∨ (pa.params ≠ [] ∧ pb.params ≠ [] ∧ pa.shape = pb.shape ∧ pa.path ≠ pb.path) := h
    show (b.method = a.method ∧ pb.path = pa.path)
        ∨ (pb.params ≠ [] ∧ pa.params ≠ [] ∧ pb.shape = pa.shape ∧ pb.path ≠ pa.path)
    rcases h' with ⟨h1, h2⟩ | ⟨h1, h2, h3, h4⟩
    · exact Or.inl ⟨h1.symm, h2.symm⟩
    · exact Or.inr ⟨h2, h1, h3.symm, fun hc => h4 hc.symm⟩

/-- insertEp at a fresh pattern shape. -/
theorem insertEp_eq_pat_new {st : BuildSt} {e : Ep} {pat : RoutePattern}
    (hp : parseRoutePattern e.path = .ok pat) (hpar : pat.params ≠ [])
    (hpf : pfind st.patterns pat.shape = none) :
    insertEp st e = { st with patterns := st.patterns ++ [(pat, [(e.method, composedOf e)])] } := by
  unfold insertEp
  rw [hp]
  dsimp only
  rw [if_pos hpar, hpf]

/-- insertEp at an existing pattern shape with matching concrete path. -/
theorem insertEp_eq_pat_upd {st : BuildSt} {e : Ep} {pat : RoutePattern}
    {q : RoutePattern × List (String × Trace)}
    (hp : parseRoutePattern e.path = .ok pat) (hpar : pat.params ≠ [])
    (hpf : pfind st.patterns pat.shape = some q) (hq : q.1.path = pat.path) :
    insertEp st e
      = { st with patterns := addPatternMethod st.patterns pat.shape e.method (composedOf e) } := by
  unfold insertEp
  rw [hp]
  dsimp only
  rw [if_pos hpar, hpf]
  dsimp only
  rw [if_pos hq]

/-- insertEp at a fresh static path. -/
theorem insertEp_eq_static_new {st : BuildSt} {e : Ep} {pat : RoutePattern}
    (hp : parseRoutePattern e.path = .ok pat) (hpar : pat.params = [])
    (hlook : alookup st.statics pat.path = none) :
    insertEp st e
      = { st with statics := st.statics ++ [(pat.path, [(e.method, composedOf e)])] } := by
  unfold insertEp
  rw [hp]
  dsimp only
  rw [if_neg (fun hc => hc hpar), hlook]

/-- insertEp at an existing static path. -/
theorem insertEp_eq_static_upd {st : BuildSt} {e : Ep} {pat : RoutePattern}
    {ms : List (String × Trace)}
    (hp : parseRoutePattern e.path = .ok pat) (hpar : pat.params = [])
    (hlook : alookup st.statics pat.path = some ms) :
    insertEp st e
      = { st with statics := updAssoc st.statics pat.path (ms ++ [(e.method, composedOf e)]) } := by
  unfold insertEp
  rw [hp]
  dsimp only
  rw [if_neg (fun hc => hc hpar), hlook]

/-- A successful build step performs exactly the insertEp state change, and
certifies that the endpoint conflicts with nothing processed before it. -/
theorem buildStep_ok {L : List Ep} {e : Ep} {st' : BuildSt}
    (hpw : List.Pairwise (fun a b => ¬ epConflict a b) L)
    (hstep : buildStep (stateOf L) e = .ok st') :
    st' = insertEp (stateOf L) e ∧ ∀ a ∈ L, ¬ epConflict a e := by
  unfold buildStep at hstep
  rcases hparse : parseRoutePattern e.path with msg | pat
  · rw [hparse] at hstep
    cases hstep
  · rw [hparse] at hstep
    dsimp only at hstep
    by_cases hpar : pat.params = []
    case pos =>
      rw [if_neg (fun hc => hc hpar)] at hstep
      rcases hlook : alookup (stateOf L).statics pat.path with _ | ms
      · rw [hlook] at hstep
        dsimp only at hstep
        cases hstep
        have hspecnil : staticsSpec L pat.path = [] := by
          have h0 := statics_stateOf L pat.path
          rw [hlook] at h0
          by_cases hz : staticsSpec L pat.path = []
          · exact hz
          · rw [if_neg hz] at h0; cases h0
        refine ⟨(insertEp_eq_static_new hparse hpar hlook).symm, ?_⟩
        intro a ha hconf
        rcases hpa : parseRoutePattern a.path with m1 | pa
        · unfold epConflict at hconf
          rw [hpa, hparse] at hconf
          exact hconf
        · rcases (epConflict_of_ok hpa hparse).mp hconf with ⟨hm, hpp⟩ | ⟨_, hbp, _, _⟩
          · have hpe : pa = pat := parse_determined hpa hparse hpp
            have hmem : (a.method, composedOf a) ∈ staticsSpec L pat.path := by
              refine List.mem_filterMap.mpr ⟨a, ha, ?_⟩
              rw [hpa]
              dsimp only
              rw [if_pos ⟨by rw [hpe]; exact hpar, by rw [hpe]⟩]
            rw [hspecnil] at hmem
            cases hmem
          · exact hbp hpar
      · rw [hlook] at hstep
        dsimp only at hstep
        have hms : ms = staticsSpec L pat.path := by
          have h0 := statics_stateOf L pat.path
          rw [hlook] at h0
          by_cases hz : staticsSpec L pat.path = []
          · rw [if_pos hz] at h0; cases h0
          · rw [if_neg hz] at h0
            exact Option.some_injective _ h0
        by_cases hdup : (alookup ms e.method).isSome = true
        · rw [if_pos hdup] at hstep
          cases hstep
        · rw [if_neg hdup] at hstep
          cases hstep
          refine ⟨(insertEp_eq_static_upd hparse hpar hlook).symm, ?_⟩
          intro a ha hconf
          rcases hpa : parseRoutePattern a.path with m1 | pa
          · unfold epConflict at hconf
            rw [hpa, hparse] at hconf
            exact hconf
          · rcases (epConflict_of_ok hpa hparse).mp hconf with ⟨hm, hpp⟩ | ⟨_, hbp, _, _⟩
            · have hpe : pa = pat := parse_determined hpa hparse hpp
              have hmem : (a.method, composedOf a) ∈ staticsSpec L pat.path := by
                refine List.mem_filterMap.mpr ⟨a, ha, ?_⟩
                rw [hpa]
                dsimp only
                rw [if_pos ⟨by rw [hpe]; exact hpar, by rw [hpe]⟩]
              apply hdup
              rw [hms, alookup_isSome_iff, ← hm]
              exact List.mem_map.mpr ⟨(a.method, composedOf a), hmem, rfl⟩
            · exact hbp hpar
    case neg =>
      rw [if_pos hpar] at hstep
      rcases hfind : (firstPats L).find? (fun q => q.shape = pat.shape) with _ | q0
      · have hpf : pfind (stateOf L).patterns pat.shape = none := by
          rw [patterns_stateOf, pfind_patternsSpec, hfind]
          rfl
        rw [hpf] at hstep
        dsimp only at hstep
        cases hstep
        refine ⟨(insertEp_eq_pat_new hparse hpar hpf).symm, ?_⟩
        intro a ha hconf
        rcases hpa : parseRoutePattern a.path with m1 | pa
        · unfold epConflict at hconf
          rw [hpa, hparse] at hconf
          exact hconf
        · have hashape : pa.params ≠ [] → pa.shape = pat.shape → False := by
            intro hps hsh
            obtain ⟨q, hq⟩ := firstPats_complete L ha hpa hps
            rw [hsh] at hq
            rw [hq] at hfind
            cases hfind
          rcases (epConflict_of_ok hpa hparse).mp hconf with ⟨hm, hpp⟩ | ⟨hap, _, hsh, _⟩
          · have hpe : pa = pat := parse_determined hpa hparse hpp
            exact hashape (by rw [hpe]; exact hpar) (by rw [hpe])
          · exact hashape hap hsh
      · have hq0mem : q0 ∈ firstPats L := List.mem_of_find?_eq_some hfind
        have hq0shape : q0.shape = pat.shape := by
          have := List.find?_some hfind
          simpa using this
        have hpf : pfind (stateOf L).patterns pat.shape
            = some (q0, patMethodsSpec L q0.shape q0.path) := by
          rw [patterns_stateOf, pfind_patternsSpec, hfind]
          rfl
        rw [hpf] at hstep
        dsimp only at hstep
        obtain ⟨a0, ha0L, hpa0, hq0par⟩ := firstPats_sound L hq0mem
        by_cases hqpath : q0.path = pat.path
        case neg =>
          rw [if_pos hqpath] at hstep
          cases hstep
        case pos =>
          rw [if_neg (fun hc => hc hqpath)] at hstep
          by_cases hdup : (alookup (patMethodsSpec L q0.shape q0.path) e.method).isSome = true
          · rw [if_pos hdup] at hstep
            cases hstep
          · rw [if_neg hdup] at hstep
            cases hstep
            refine ⟨(insertEp_eq_pat_upd hparse hpar hpf hqpath).symm, ?_⟩
            intro a ha hconf
            rcases hpa : parseRoutePattern a.path with m1 | pa
            · unfold epConflict at hconf
              rw [hpa, hparse] at hconf
              exact hconf
            · rcases (epConflict_of_ok hpa hparse).mp hconf with ⟨hm, hpp⟩ | ⟨hap, _, hsh, hnp⟩
              · have hpe : pa = pat := parse_determined hpa hparse hpp
                have hmem : (a.method, composedOf a) ∈ patMethodsSpec L q0.shape q0.path := by
                  refine List.mem_filterMap.mpr ⟨a, ha, ?_⟩
                  rw [hpa]
                  dsimp only
                  rw [if_pos ⟨by rw [hpe]; exact hpar, by rw [hpe, ← hq0shape],
                    by rw [hpe, ← hqpath]⟩]
                apply hdup
                rw [alookup_isSome_iff, ← hm]
                exact List.mem_map.mpr ⟨(a.method, composedOf a), hmem, rfl⟩
              · -- ambiguous with a previously registered pattern of this shape
                have hpaq0 : pa.path = q0.path := by
                  by_cases haa0 : a = a0
                  · subst haa0
                    rw [hpa] at hpa0
                    cases hpa0
                    rfl
                  · have hsymm : Symmetric (fun x y : Ep => ¬ epConflict x y) :=
                      fun x y hxy hc => hxy (epConflict_symm hc)
                    have hnc : ¬ epConflict a a0 := hpw.forall hsymm ha ha0L haa0
                    by_contra hne
                    apply hnc
                    rw [epConflict_of_ok hpa hpa0]
                    exact Or.inr ⟨hap, hq0par, by rw [hsh, hq0shape], hne⟩
                rw [hqpath] at hpaq0
                exact hnp hpaq0

/-- A successful build run replays insertEp over the whole list and
certifies pairwise conflict-freedom. -/
theorem buildGo_ok_spec : ∀ (rest pref : List Ep) (stF : BuildSt),
    List.Pairwise (fun a b => ¬ epConflict a b) pref →
    buildGo (stateOf pref) rest = .ok stF →
    stF = stateOf (pref ++ rest) ∧
      List.Pairwise (fun a b => ¬ epConflict a b) (pref ++ rest) := by
  intro rest
  induction rest with
  | nil =>
    intro pref stF hpw h
    unfold buildGo at h
    cases h
    rw [List.append_nil]
    exact ⟨rfl, hpw⟩
  | cons e rest ih =>
    intro pref stF hpw h
    unfold buildGo at h
    rcases hstep : buildStep (stateOf pref) e with msg | st1
    · rw [hstep] at h
      cases h
    · rw [hstep] at h
      obtain ⟨hst1, hnc⟩ := buildStep_ok hpw hstep
      have hpw' : List.Pairwise (fun a b => ¬ epConflict a b) (pref ++ [e]) := by
        rw [List.pairwise_append]
        refine ⟨hpw, List.pairwise_singleton _ _, ?_⟩
        intro a ha b hb
        have hbe : b = e := by simpa using hb
        subst hbe
        exact hnc a ha
      have hst1' : st1 = stateOf (pref ++ [e]) := by
        rw [stateOf_append]
        exact hst1
      have hres := ih (pref ++ [e]) stF hpw' (by rw [← hst1']; exact h)
      rw [List.append_assoc, List.singleton_append] at hres
      exact hres

/-- A successfully built table certifies conflict-freedom and is the
finalized replayed state. -/
theorem buildTable_ok {L : List Ep} {fb : Option Trace} {rc : List (List MW)}
    {tbl : Table} (h : buildTable L fb rc = .ok tbl) :
    List.Pairwise (fun a b => ¬ epConflict a b) L
      ∧ tbl = finalize (stateOf L) fb rc := by
  unfold buildTable at h
  rcases hgo : buildGo ⟨[], []⟩ L with msg | st
  · rw [hgo] at h
    cases h
  · rw [hgo] at h
    cases h
    have h0 := buildGo_ok_spec L [] st List.Pairwise.nil hgo
    rw [List.nil_append] at h0
    exact ⟨h0.2, by rw [h0.1]⟩

/-- An endpoint whose path does not parse aborts the whole build run. -/
theorem buildGo_error_of_parse_error : ∀ (L : List Ep) (st : BuildSt) {e : Ep}
    {msg : String}, e ∈ L → parseRoutePattern e.path = .error msg →
    ∃ m, buildGo st L = .error m := by
  intro L
  induction L with
  | nil =>
    intro st e msg h
    cases h
  | cons a rest ih =>
    intro st e msg hmem hpe
    unfold buildGo
    rcases hstep : buildStep st a with m | st1
    · exact ⟨m, rfl⟩
    · rcases List.mem_cons.mp hmem with rfl | hrest
      · exfalso
        unfold buildStep at hstep
        rw [hpe] at hstep
        cases hstep
      · exact ih st1 hrest hpe

/-- An endpoint whose path does not parse aborts buildTable. -/
theorem buildTable_error_of_parse_error {L : List Ep} {fb : Option Trace}
    {rc : List (List MW)} {e : Ep} {msg : String} (hmem : e ∈ L)
    (hpe : parseRoutePattern e.path = .error msg) :
    ∃ m, buildTable L fb rc = .error m := by
  obtain ⟨m, hm⟩ := buildGo_error_of_parse_error L ⟨[], []⟩ hmem hpe
  refine ⟨m, ?_⟩
  unfold buildTable
  rw [hm]

/-! ### Ordering facts for the sorted Allow list -/

theorem lexLeChars_total : ∀ a b : List Char,
    lexLeChars a b = true ∨ lexLeChars b a = true := by
  intro a
  induction a with
  | nil => intro b; exact Or.inl rfl
  | cons x xs ih =>
    intro b
    cases b with
    | nil => exact Or.inr rfl
    | cons y ys =>
      rcases lt_trichotomy x y with h | h | h
      · left
        simp [lexLeChars, h]
      · subst h
        rcases ih ys with h' | h'
        · left
          simp [lexLeChars, h']
        · right
          simp [lexLeChars, h']
      · right
        simp [lexLeChars, h]

theorem lexLeChars_trans : ∀ a b c : List Char,
    lexLeChars a b = true → lexLeChars b c = true → lexLeChars a c = true := by
  intro a
  induction a with
  | nil => intro b c _ _; rfl
  | cons x xs ih =>
    intro b c hab hbc
    cases b with
    | nil => exact Bool.noConfusion hab
    | cons y ys =>
      cases c with
      | nil => exact Bool.noConfusion hbc
      | cons z zs =>
        by_cases hxy : x < y
        · by_cases hyz : y < z
          · simp [lexLeChars, lt_trans hxy hyz]
          · by_cases hyz' : y = z
            · subst hyz'
              simp [lexLeChars, hxy]
            · simp [lexLeChars, hyz, hyz'] at hbc
        · by_cases hxy' : x = y
          · subst hxy'
            by_cases hyz : x < z
            · simp [lexLeChars, hyz]
            · by_cases hyz' : x = z
              · subst hyz'
                simp only [lexLeChars, if_neg hyz, if_pos rfl] at hab hbc ⊢
                exact ih ys zs hab hbc
              · simp [lexLeChars, hyz, hyz'] at hbc
          · simp [lexLeChars, hxy, hxy'] at hab

instance : IsTotal String goStrLE :=
  ⟨fun a b => lexLeChars_total a.toList b.toList⟩

instance : IsTrans String goStrLE :=
  ⟨fun a b c => lexLeChars_trans a.toList b.toList c.toList⟩

theorem sortStrings_perm (l : List String) : (sortStrings l).Perm l :=
  List.perm_insertionSort goStrLE l

theorem sortStrings_sorted (l : List String) : List.Sorted goStrLE (sortStrings l) :=
  List.sorted_insertionSort goStrLE l

theorem joinStrings_ne_empty {l : List String} (h : ∀ s ∈ l, s ≠ "")
    (hl : l ≠ []) : joinStrings ", " l ≠ "" := by
  cases l with
  | nil => exact absurd rfl hl
  | cons x xs =>
    cases xs with
    | nil => exact h x (by simp)
    | cons y ys =>
      intro hc
      have := congrArg String.length hc
      rw [show joinStrings ", " (x :: y :: ys) = x ++ ", " ++ joinStrings ", " (y :: ys) from rfl]
        at this
      simp [String.length_append] at this
      exact absurd this.1.2 (by decide)

/-! ### The Allow list names exactly the methods registered at a path -/

theorem methodsForPath_sound {L : List Ep} {P m : String}
    (hm : m ∈ methodsForPath L P) : ∃ a ∈ L, a.method = m := by
  obtain ⟨a, haL, hfa⟩ := List.mem_filterMap.mp hm
  rcases hp : parseRoutePattern a.path with msg | pa
  · rw [hp] at hfa
    cases hfa
  · rw [hp] at hfa
    dsimp only at hfa
    by_cases hc : pa.path = P
    · rw [if_pos hc] at hfa
      cases hfa
      exact ⟨a, haL, rfl⟩
    · rw [if_neg hc] at hfa
      cases hfa

/-- When some endpoint registers the static path P, the static method list
at P projects onto all methods registered at P. -/
theorem staticsSpec_map_fst {L : List Ep} {P : String}
    (hne : staticsSpec L P ≠ []) :
    (staticsSpec L P).map Prod.fst = methodsForPath L P := by
  obtain ⟨x0, hx0⟩ := List.exists_mem_of_ne_nil _ hne
  obtain ⟨a0, _, pa0, hp0, hpar0, hpath0, _⟩ := staticsSpec_sound hx0
  unfold staticsSpec methodsForPath
  rw [List.map_filterMap]
  refine List.filterMap_congr ?_
  intro a _
  rcases hp : parseRoutePattern a.path with msg | pa
  · rfl
  · dsimp only
    by_cases hc : pa.path = P
    · have hpe : pa = pa0 := parse_determined hp hp0 (by rw [hc, hpath0])
      rw [if_pos ⟨by rw [hpe]; exact hpar0, hc⟩, if_pos hc]
      rfl
    · rw [if_neg (fun h => hc h.2), if_neg hc]
      rfl

/-- The method list of the compiled pattern at concrete path P0 projects
onto all methods registered at P0. -/
theorem patMethodsSpec_map_fst {L : List Ep} {q0 : RoutePattern} {x : Ep}
    (hq0 : parseRoutePattern x.path = .ok q0) (hpar0 : q0.params ≠ []) :
    (patMethodsSpec L q0.shape q0.path).map Prod.fst = methodsForPath L q0.path := by
  unfold patMethodsSpec methodsForPath
  rw [List.map_filterMap]
  refine List.filterMap_congr ?_
  intro a _
  rcases hp : parseRoutePattern a.path with msg | pa
  · rfl
  · dsimp only
    by_cases hc : pa.path = q0.path
    · have hpe : pa = q0 := parse_determined hp hq0 hc
      rw [if_pos ⟨by rw [hpe]; exact hpar0, by rw [hpe], hc⟩, if_pos hc]
      rfl
    · rw [if_neg (fun h => hc h.2.2), if_neg hc]
      rfl

/-- The serve-phase lookup of a built table's static entry. -/
theorem serve_statics_lookup {L : List Ep} {fb : Option Trace}
    {rc : List (List MW)} {tbl : Table} (h : buildTable L fb rc = .ok tbl)
    (P : String) :
    alookup tbl.statics P
      = if staticsSpec L P = [] then none
        else some ⟨staticsSpec L P, allowOf ((staticsSpec L P).map Prod.fst)⟩ := by
  obtain ⟨_, htbl⟩ := buildTable_ok h
  subst htbl
  show alookup ((stateOf L).statics.map
    (fun p => (p.1, RouteMethods.mk p.2 (allowOf (p.2.map Prod.fst))))) P = _
  rw [alookup_map_snd _ (fun _ ms => RouteMethods.mk ms (allowOf (ms.map Prod.fst))),
    statics_stateOf]
  by_cases hz : staticsSpec L P = []
  · rw [if_pos hz, if_pos hz]
    rfl
  · rw [if_neg hz, if_neg hz]
    rfl

/-- The serve-phase pattern scan of a built table. -/
theorem serve_patterns_find {L : List Ep} {fb : Option Trace}
    {rc : List (List MW)} {tbl : Table} (h : buildTable L fb rc = .ok tbl)
    (P : String) :
    tbl.patterns.find? (fun p => (p.1.matchPath P).isSome)
      = ((firstPats L).find? (fun q => (q.matchPath P).isSome)).map
          (fun q => (q, RouteMethods.mk (patMethodsSpec L q.shape q.path)
            (allowOf ((patMethodsSpec L q.shape q.path).map Prod.fst)))) := by
  obtain ⟨_, htbl⟩ := buildTable_ok h
  subst htbl
  have hps : (finalize (stateOf L) fb rc).patterns
      = (patternsSpec L).map
          (fun p => (p.1, RouteMethods.mk p.2 (allowOf (p.2.map Prod.fst)))) := by
    show (stateOf L).patterns.map _ = _
    rw [patterns_stateOf]
  rw [hps, List.find?_map]
  unfold patternsSpec
  rw [List.find?_map]
  rcases hf : (firstPats L).find? (fun q => (q.matchPath P).isSome) with _ | q0
  · have hf2 : List.find?
        (((fun p => (p.1.matchPath P).isSome) ∘ fun p =>
            (p.1, RouteMethods.mk p.2 (allowOf (List.map Prod.fst p.2)))) ∘
          fun q => (q, patMethodsSpec L q.shape q.path))
        (firstPats L) = none := hf
    rw [hf2, hf]
    rfl
  · have hf2 : List.find?
        (((fun p => (p.1.matchPath P).isSome) ∘ fun p =>
            (p.1, RouteMethods.mk p.2 (allowOf (List.map Prod.fst p.2)))) ∘
          fun q => (q, patMethodsSpec L q.shape q.path))
        (firstPats L) = some q0 := hf
    rw [hf2, hf]
    rfl

/-! ### A required header that is absent fails metadata decoding -/

theorem decodeMetaField_missing_header {own : String} {f : StructField}
    {r : Request} {h : String}
    (hex : f.exported = true) (hanon : f.anonymousStruct = false)
    (htag : parseMetaTag own f "header" false
      = .ok (some { name := h, omitempty := false, skip := false }))
    (hmiss : r.headers h = []) :
    ∃ e, decodeMetaField own f r = .error e := by
  unfold decodeMetaField
  rw [if_neg (fun hc => hc hex), if_neg (fun hc : f.anonymousStruct = true =>
    Bool.noConfusion (hanon ▸ hc))]
  rcases hpt : parseMetaTag own f "path" true with e0 | pathTag
  · exact ⟨e0, rfl⟩
  · rw [htag]
    dsimp only
    cases pathTag with
    | some pt =>
      rw [if_pos ⟨rfl, rfl⟩]
      exact ⟨_, rfl⟩
    | none =>
      rw [if_neg (fun hc => Bool.noConfusion hc.1)]
      dsimp only
      rw [hmiss]
      exact ⟨_, rfl⟩

theorem decodeMetaFields_missing_header {own : String} {r : Request}
    {f : StructField} {h : String}
    (hex : f.exported = true) (hanon : f.anonymousStruct = false)
    (htag : parseMetaTag own f "header" false
      = .ok (some { name := h, omitempty := false, skip := false }))
    (hmiss : r.headers h = []) :
    ∀ fields : List StructField, f ∈ fields →
      ∃ e, decodeMetaFields own fields r = .error e := by
  intro fields
  induction fields with
  | nil => intro hf; cases hf
  | cons g gs ih =>
    intro hf
    unfold decodeMetaFields
    rcases List.mem_cons.mp hf with rfl | hmem
    · obtain ⟨e, he⟩ := decodeMetaField_missing_header hex hanon htag hmiss (r := r)
      rw [he]
      exact ⟨e, rfl⟩
    · rcases hg : decodeMetaField own g r with e | v
      · exact ⟨e, rfl⟩
      · obtain ⟨e, he⟩ := ih hmem
        rw [he]
        exact ⟨e, rfl⟩

/-! ## The claims -/

/-- C1: the claimed behaviour — a GET query value bound to a string field is
stored unchanged — does not hold in the code: setFromStrings demands
encoding.TextUnmarshaler of every addressable value before reaching its kind
switch, so even a plain string query parameter fails the whole request with a
400 response and the typed handler is never invoked. -/
theorem c1_string_query_param_rejected :
    decodeQueryParams "echoRequest" [⟨"Name", .str, [("json", "name")], true, false⟩]
        [("name", ["alice"])]
      = .error (.wrap "decode query name: "
          (.errorf "type string does not implement TextUnmarshaler"))
    ∧ (adaptHandler 0 "echoRequest" [⟨"Name", .str, [("json", "name")], true, false⟩]
        (fun _ => Except.error (.errorf "unused"))
        (fun req => Except.ok req)
        ⟨"GET", "/echo", [("name", ["alice"])], fun _ => [], none, []⟩).handlerCall
      = .notCalled
    ∧ (adaptHandler 0 "echoRequest" [⟨"Name", .str, [("json", "name")], true, false⟩]
        (fun _ => Except.error (.errorf "unused"))
        (fun req => Except.ok req)
        ⟨"GET", "/echo", [("name", ["alice"])], fun _ => [], none, []⟩).response
      = .errorResp ⟨400, "application/json",
          [("error", "decode query name: type string does not implement TextUnmarshaler")]⟩ :=
  ⟨rfl, rfl, rfl⟩

/-- C4: the claimed behaviour — a path-tagged meta field is populated from the
Path Parameter Bag — does not hold in the code: the bag does capture 42 for
/users/42, but setFromStrings rejects the int field for not implementing
encoding.TextUnmarshaler, so the request fails with 400 and the handler never
runs. -/
theorem c4_path_param_meta_field_rejected :
    (parseRoutePattern "/users/:id").map (fun p => p.matchPath "/users/42")
      = .ok (some [("id", "42")])
    ∧ decodeRequestMeta "userMeta" [⟨"ID", .intT "int" 64, [("path", "id")], true, false⟩]
        ⟨"GET", "/users/42", [], fun _ => [], none, [("id", "42")]⟩
      = .error (.wrap "decode path id: "
          (.errorf "type int does not implement TextUnmarshaler"))
    ∧ (adaptHandlerWithMeta 0 "userReq" [] "userMeta"
        [⟨"ID", .intT "int" 64, [("path", "id")], true, false⟩]
        (fun _ => Except.error (.errorf "unused"))
        (fun _ _ => Except.ok "res")
        ⟨"GET", "/users/42", [], fun _ => [], none, [("id", "42")]⟩).handlerCall
      = .notCalled
    ∧ (adaptHandlerWithMeta 0 "userReq" [] "userMeta"
        [⟨"ID", .intT "int" 64, [("path", "id")], true, false⟩]
        (fun _ => Except.error (.errorf "unused"))
        (fun _ _ => Except.ok "res")
        ⟨"GET", "/users/42", [], fun _ => [], none, [("id", "42")]⟩).response
      = .errorResp ⟨400, "application/json",
          [("error", "decode path id: type int does not implement TextUnmarshaler")]⟩ :=
  ⟨rfl, rfl, rfl, rfl⟩

/-- C6: a non-GET request with an absent or immediately exhausted (whitespace
only) body decodes to the request type's zero value with no error, the typed
handler runs on that zero value, and the outcome is exactly the handler's:
never a decode error. -/
theorem c6_empty_body_decodes_to_zero {ρ : Type} (cStatus : Int)
    (ownerName : String) (fields : List StructField)
    (jsonDec : String → Except GoErr (List GoValue))
    (handler : List GoValue → Except GoErr ρ) (r : Request)
    (hm : r.method ≠ "GET")
    (hb : r.body = none ∨ ∃ s, r.body = some s ∧ jsonWhitespaceOnly s = true) :
    decodeBody (fields.map (fun f => zeroValue f.ftype)) jsonDec r.body
      = .ok (fields.map (fun f => zeroValue f.ftype))
    ∧ adaptHandler cStatus ownerName fields jsonDec handler r
      = { response :=
            match handler (fields.map (fun f => zeroValue f.ftype)) with
            | .error err => .errorResp (encodeError err)
            | .ok res => .success (if cStatus ≠ 0 then cStatus else 200) res
          handlerCall := .calledWith (fields.map (fun f => zeroValue f.ftype)) } := by
  have hdec : decodeBody (fields.map (fun f => zeroValue f.ftype)) jsonDec r.body
      = .ok (fields.map (fun f => zeroValue f.ftype)) := by
    rcases hb with hb | ⟨s, hbs, hws⟩
    · rw [hb]
      rfl
    · rw [hbs]
      unfold decodeBody
      dsimp only
      rw [if_pos hws]
  refine ⟨hdec, ?_⟩
  unfold adaptHandler
  rw [if_neg hm, hdec]
  dsimp only
  rcases hh : handler (fields.map (fun f => zeroValue f.ftype)) with err | res <;> rw [hh]

/-- The zero-value pipeline at a concrete POST request with nil body. -/
theorem c6_witness :
    adaptHandler 0 "Req" [⟨"A", .intT "int" 64, [("json", "a")], true, false⟩]
        (fun _ => Except.error (.errorf "decoder must not run"))
        (fun req => Except.ok req)
        ⟨"POST", "/", [], fun _ => [], none, []⟩
      = { response := .success 200 [GoValue.vInt 0]
          handlerCall := .calledWith [GoValue.vInt 0] } := by
  have h := (c6_empty_body_decodes_to_zero 0 "Req"
    [⟨"A", .intT "int" 64, [("json", "a")], true, false⟩]
    (fun _ => Except.error (.errorf "decoder must not run"))
    (fun req => Except.ok req)
    ⟨"POST", "/", [], fun _ => [], none, []⟩ (by decide) (Or.inl rfl)).2
  rw [h]
  rfl

/-- C9: once the root is sealed by buildHandler, both registration entry
points return the state unchanged — endpoint list and metadata list keep
their values — and the dispatch table built from the root is therefore the
same before and after the attempted registration. -/
theorem c9_sealed_root_rejects_registration (st : RootState)
    (gp : String) (gc : List (List MW)) (method path : String) (hTrace : Trace)
    (reqType mOwn : String) (mFields : Option (List StructField))
    (resType : String) (cons prods : List String)
    (fb : Option Trace) (rc : List (List MW))
    (hs : st.sealed = true) :
    registerHandler st gp gc method path hTrace reqType resType cons prods = st
    ∧ registerHandlerM st gp gc method path hTrace reqType mOwn mFields resType cons prods = st
    ∧ buildTable (registerHandler st gp gc method path hTrace reqType resType cons prods).handlers
        fb rc
      = buildTable st.handlers fb rc := by
  have h1 : registerHandler st gp gc method path hTrace reqType resType cons prods = st := by
    unfold registerHandler
    rw [if_pos hs]
  have h2 : registerHandlerM st gp gc method path hTrace reqType mOwn mFields resType
      cons prods = st := by
    unfold registerHandlerM
    rw [if_pos hs]
  exact ⟨h1, h2, by rw [h1]⟩

/-- A concrete sealed root ignores a registration. -/
theorem c9_witness :
    registerHandler ⟨[], [], true⟩ "" [] "GET" "/x" ["h"] "a" "b" [] [] = ⟨[], [], true⟩
    ∧ registerHandlerM ⟨[], [], true⟩ "" [] "GET" "/x" ["h"] "a" "m" none "b" [] []
      = ⟨[], [], true⟩
    ∧ buildTable (registerHandler ⟨[], [], true⟩ "" [] "GET" "/x" ["h"] "a" "b" [] []).handlers
        none []
      = buildTable (⟨[], [], true⟩ : RootState).handlers none [] :=
  c9_sealed_root_rejects_registration ⟨[], [], true⟩ "" [] "GET" "/x" ["h"] "a" "m" none "b"
    [] [] none [] rfl

/-- C10: the default error encoder writes the single-field JSON object
error = message, and takes the wrapped StatusError's status only when it is
non-zero; a StatusError carrying 0 and a plain error both encode as 500. -/
theorem c10_error_encoding (err : GoErr) :
    (encodeError err).contentType = "application/json"
    ∧ (encodeError err).body = [("error", GoErr.message err)]
    ∧ (∀ s : Int, GoErr.asStatusError err = some s → s ≠ 0 → (encodeError err).status = s)
    ∧ (GoErr.asStatusError err = some 0 → (encodeError err).status = 500)
    ∧ (GoErr.asStatusError err = none → (encodeError err).status = 500) := by
  refine ⟨rfl, rfl, ?_, ?_, ?_⟩
  · intro s hs hne
    unfold encodeError
    dsimp only
    rw [hs]
    dsimp only
    rw [if_pos hne]
  · intro hs
    unfold encodeError
    dsimp only
    rw [hs]
    rfl
  · intro hs
    unfold encodeError
    dsimp only
    rw [hs]

/-- Concrete error encodings: a 404 StatusError keeps its status, a zero
StatusError and a plain error fall back to 500. -/
theorem c10_witness :
    (encodeError (.statusErr 404 (.errorf "gone"))).status = 404
    ∧ (encodeError (.statusErrNil 0)).status = 500
    ∧ (encodeError (.errorf "boom")).status = 500 :=
  ⟨(c10_error_encoding (.statusErr 404 (.errorf "gone"))).2.2.1 404 rfl (by decide),
   (c10_error_encoding (.statusErrNil 0)).2.2.2.1 rfl,
   (c10_error_encoding (.errorf "boom")).2.2.2.2 rfl⟩

/-- C2: for every collected middleware list the sorted execution order is by
priority with collection position breaking ties — the indexed stable sort
equals the sort applyMiddlewares performs, and read outermost-first (reverse
of wrap order) every earlier entry has strictly higher priority or equal
priority and a collection position closer to the root; and the end-to-end
scenario of the claim — root-high (10) and root-low (0) on the root, group
(0) on a child group, handler at /v1/ping — produces exactly the claimed
call order. -/
theorem c2_middleware_priority_order :
    (∀ chain : List (List MW),
      ((List.insertionSort pairLexLE (collectMiddlewares chain).enum).map Prod.snd
          = List.insertionSort mwLE (collectMiddlewares chain))
        ∧ List.Pairwise outerRel
            ((List.insertionSort pairLexLE (collectMiddlewares chain).enum).reverse))
    ∧ (match
        buildTable
          (registerHandler ⟨[], [], false⟩ "/v1"
            [[⟨"group", 0⟩], [⟨"root-high", 10⟩, ⟨"root-low", 0⟩]]
            "GET" "/ping" ["handler"] "pingReq" "pingRes" [] []).handlers
          none [] with
      | .ok t => serve t "GET" "/v1/ping"
      | .error _ => ServeOut.notFound)
      = .matched ["root-high-before", "root-low-before", "group-before", "handler",
          "group-after", "root-low-after", "root-high-after"] [] := by
  refine ⟨fun chain => ⟨sorted_enum_map_snd _, sorted_enum_outerRel _⟩, ?_⟩
  rfl

/-- C3: an endpoint list with a duplicate (same method, same normalized
path) or an ambiguity (two parameterized routes of equal canonical shape and
different concrete paths) never builds — buildTable answers an error and no
table value exists — and the two concrete conflicts produce exactly the
claimed error messages. -/
theorem c3_conflicting_routes_abort_build :
    (∀ (L : List Ep) (fb : Option Trace) (rc : List (List MW)),
        ¬ List.Pairwise (fun a b => ¬ epConflict a b) L →
        ∃ msg, buildTable L fb rc = .error msg)
    ∧ buildTable [⟨"/ping", "GET", ["h1"], []⟩, ⟨"/ping", "GET", ["h2"], []⟩] none []
      = .error "duplicate route: GET /ping"
    ∧ buildTable [⟨"/users/:id", "GET", ["h1"], []⟩,
        ⟨"/users/:user_id", "GET", ["h2"], []⟩] none []
      = .error "ambiguous route: /users/:user_id conflicts with /users/:id" := by
  refine ⟨?_, rfl, rfl⟩
  intro L fb rc hnp
  rcases hbt : buildTable L fb rc with msg | tbl
  · exact ⟨msg, rfl⟩
  · exact absurd (buildTable_ok hbt).1 hnp

/-- A route registered twice aborts a concrete build. -/
theorem c3_witness :
    ∃ msg, buildTable [⟨"/a", "GET", ["h"], []⟩, ⟨"/a", "GET", ["h"], []⟩] none []
      = .error msg := by
  refine c3_conflicting_routes_abort_build.1 _ none [] ?_
  intro hp
  exact (List.pairwise_cons.mp hp).1 _ (List.mem_singleton.mpr rfl) (Or.inl ⟨rfl, rfl⟩)

/-- C5 counterexample to the claim as stated: an invalid metadata shape (a
path tag naming a parameter the route does not declare) is only logged —
RegisterHandlerM drops the registration and leaves the root untouched — so
building the router afterwards succeeds with no error surfacing the
problem. -/
theorem c5_counterexample :
    registerHandlerM ⟨[], [], false⟩ "" [] "GET" "/users/:id" ["handler"] "userReq"
        "userMeta" (some [⟨"ID", .intT "int" 64, [("path", "user")], true, false⟩])
        "userRes" [] []
      = ⟨[], [], false⟩
    ∧ buildTable (registerHandlerM ⟨[], [], false⟩ "" [] "GET" "/users/:id" ["handler"]
        "userReq" "userMeta" (some [⟨"ID", .intT "int" 64, [("path", "user")], true, false⟩])
        "userRes" [] []).handlers none []
      = .ok ⟨[], [], none⟩ :=
  ⟨rfl, rfl⟩

/-- C5 (amended): invalid metadata shape makes RegisterHandlerM drop the
registration silently (the root state is unchanged, so nothing of it can
surface at build time); the build-time errors proper — invalid path syntax,
duplicate route, ambiguous route — do abort buildTable with an error. -/
theorem c5_registration_time_errors :
    (∀ (st : RootState) (gp : String) (gc : List (List MW)) (method path : String)
        (hTrace : Trace) (reqType mOwn : String) (mFields : Option (List StructField))
        (resType : String) (cons prods : List String) (e : GoErr),
        validateMetaType mOwn mFields (gp ++ path) = .error e →
        registerHandlerM st gp gc method path hTrace reqType mOwn mFields resType cons prods
          = st)
    ∧ (∀ (L : List Ep) (fb : Option Trace) (rc : List (List MW)) (ep : Ep) (msg : String),
        ep ∈ L → parseRoutePattern ep.path = .error msg →
        ∃ m, buildTable L fb rc = .error m)
    ∧ (∀ (L : List Ep) (fb : Option Trace) (rc : List (List MW)),
        ¬ List.Pairwise (fun a b => ¬ epConflict a b) L →
        ∃ m, buildTable L fb rc = .error m) := by
  refine ⟨?_, ?_, ?_⟩
  · intro st gp gc method path hTrace reqType mOwn mFields resType cons prods e hv
    unfold registerHandlerM
    cases hs : st.sealed with
    | true => rw [if_pos rfl]
    | false =>
      rw [if_neg (fun hc : (false = true) => Bool.noConfusion hc)]
      dsimp only
      rw [hv]
  · intro L fb rc ep msg hmem hpe
    exact buildTable_error_of_parse_error hmem hpe
  · intro L fb rc hnp
    rcases hbt : buildTable L fb rc with msg | tbl
    · exact ⟨msg, rfl⟩
    · exact absurd (buildTable_ok hbt).1 hnp

/-- A both-tags metadata field is dropped at registration, and an invalid
path syntax aborts a concrete build. -/
theorem c5_witness :
    registerHandlerM ⟨[], [], false⟩ "" [] "GET" "/users/:id" ["h"] "r" "m"
        (some [⟨"A", .str, [("path", "id"), ("header", "x")], true, false⟩]) "s" [] []
      = ⟨[], [], false⟩
    ∧ ∃ m, buildTable [⟨"/users/:ID", "GET", ["h"], []⟩] none [] = .error m := by
  constructor
  · obtain ⟨e, hv⟩ : ∃ e, validateMetaType "m"
        (some [⟨"A", .str, [("path", "id"), ("header", "x")], true, false⟩])
        ("" ++ "/users/:id") = .error e := ⟨_, rfl⟩
    exact c5_registration_time_errors.1 ⟨[], [], false⟩ "" [] "GET" "/users/:id" ["h"]
      "r" "m" (some [⟨"A", .str, [("path", "id"), ("header", "x")], true, false⟩]) "s"
      [] [] e hv
  · obtain ⟨msg, hpe⟩ : ∃ msg, parseRoutePattern "/users/:ID" = .error msg := ⟨_, rfl⟩
    exact c5_registration_time_errors.2.1 _ none [] ⟨"/users/:ID", "GET", ["h"], []⟩ msg
      (List.mem_singleton.mpr rfl) hpe

/-- C8: whenever a meta struct has an exported, non-anonymous field whose
header tag carries no omitempty marker and the request lacks that header,
the meta-aware pipeline never invokes the typed handler and answers an
error response with status 400. -/
theorem c8_missing_required_header_400 {ρ : Type} (cStatus : Int)
    (ownerName : String) (fields : List StructField) (metaOwnerName : String)
    (metaFields : List StructField)
    (jsonDec : String → Except GoErr (List GoValue))
    (handler : List GoValue → List GoValue → Except GoErr ρ) (r : Request)
    (f : StructField) (hname : String)
    (hf : f ∈ metaFields) (hex : f.exported = true) (hanon : f.anonymousStruct = false)
    (htag : parseMetaTag metaOwnerName f "header" false
      = .ok (some { name := hname, omitempty := false, skip := false }))
    (hmiss : r.headers hname = []) :
    (adaptHandlerWithMeta cStatus ownerName fields metaOwnerName metaFields jsonDec
        handler r).handlerCall
      = .notCalled
    ∧ ∃ er,
      (adaptHandlerWithMeta cStatus ownerName fields metaOwnerName metaFields jsonDec
          handler r).response
        = .errorResp er
      ∧ er.status = 400 := by
  obtain ⟨e, he⟩ := decodeMetaFields_missing_header hex hanon htag hmiss metaFields hf
  unfold adaptHandlerWithMeta
  rcases hdec : (if r.method = "GET" then decodeQueryParams ownerName fields r.query
      else decodeBody (fields.map (fun f => zeroValue f.ftype)) jsonDec r.body)
    with e0 | req
  · rw [hdec]
    exact ⟨rfl, encodeError (.statusErr 400 e0), rfl, rfl⟩
  · have he2 : decodeRequestMeta metaOwnerName metaFields r = .error e := he
    rw [hdec, he2]
    exact ⟨rfl, encodeError (.statusErr 400 e), rfl, rfl⟩

/-- A concrete request lacking a required authorization header is refused
with 400 before the handler. -/
theorem c8_witness :
    (adaptHandlerWithMeta 0 "req" [] "meta"
        [⟨"Auth", .str, [("header", "authorization")], true, false⟩]
        (fun _ => Except.error (.errorf "unused"))
        (fun _ _ => Except.ok "ok")
        ⟨"GET", "/me", [], fun _ => [], none, []⟩).handlerCall
      = .notCalled
    ∧ ∃ er,
      (adaptHandlerWithMeta 0 "req" [] "meta"
          [⟨"Auth", .str, [("header", "authorization")], true, false⟩]
          (fun _ => Except.error (.errorf "unused"))
          (fun _ _ => Except.ok "ok")
          ⟨"GET", "/me", [], fun _ => [], none, []⟩).response
        = .errorResp er
      ∧ er.status = 400 :=
  c8_missing_required_header_400 0 "req" [] "meta"
    [⟨"Auth", .str, [("header", "authorization")], true, false⟩]
    (fun _ => Except.error (.errorf "unused"))
    (fun _ _ => Except.ok "ok")
    ⟨"GET", "/me", [], fun _ => [], none, []⟩
    ⟨"Auth", .str, [("header", "authorization")], true, false⟩ "authorization"
    (List.mem_singleton.mpr rfl) rfl rfl rfl rfl

/-- With every registered method non-empty, every entry of methodsForPath is
a non-empty string. -/
theorem methodsForPath_all_ne {L : List Ep} {P : String}
    (hmn : ∀ e ∈ L, e.method ≠ "") : ∀ s ∈ methodsForPath L P, s ≠ "" := by
  intro s hs
  obtain ⟨a, haL, ham⟩ := methodsForPath_sound hs
  exact ham ▸ hmn a haL

/-- The precomputed Allow value of a non-empty list of non-empty method
names is itself non-empty. -/
theorem allowOf_ne_empty (meths : List String) (hne : meths ≠ [])
    (hok : ∀ s ∈ meths, s ≠ "") : allowOf meths ≠ "" := by
  unfold allowOf
  apply joinStrings_ne_empty
  · intro s hs
    exact hok s ((sortStrings_perm meths).mem_iff.mp hs)
  · intro hc
    have hp := sortStrings_perm meths
    rw [hc] at hp
    exact hne (List.eq_nil_of_length_eq_zero (hp.length_eq.symm))

/-- C7: a request whose normalized path is registered — statically, or by
being matched by the first applicable compiled pattern — with a method that
carries no handler for that path is answered 405 with an Allow header that
is a permutation of exactly the methods registered for the path, sorted
ascending in byte order. -/
theorem c7_unregistered_method_gets_405 {L : List Ep} {fb : Option Trace}
    {rc : List (List MW)} {tbl : Table} (m rawPath : String)
    (hbt : buildTable L fb rc = .ok tbl)
    (hmn : ∀ e ∈ L, e.method ≠ "") :
    (staticsSpec L (normalizeRequestPath rawPath) ≠ [] →
      m ∉ methodsForPath L (normalizeRequestPath rawPath) →
      ∃ ms, serve tbl m rawPath = .methodNotAllowed (some (joinStrings ", " ms))
        ∧ ms.Perm (methodsForPath L (normalizeRequestPath rawPath))
        ∧ List.Sorted goStrLE ms)
    ∧ (staticsSpec L (normalizeRequestPath rawPath) = [] →
      ∀ q0 : RoutePattern,
        (firstPats L).find? (fun q => (q.matchPath (normalizeRequestPath rawPath)).isSome)
          = some q0 →
        m ∉ methodsForPath L q0.path →
        ∃ ms, serve tbl m rawPath = .methodNotAllowed (some (joinStrings ", " ms))
          ∧ ms.Perm (methodsForPath L q0.path)
          ∧ List.Sorted goStrLE ms) := by
  constructor
  · intro hS hm
    have hmf : (staticsSpec L (normalizeRequestPath rawPath)).map Prod.fst
        = methodsForPath L (normalizeRequestPath rawPath) :=
      staticsSpec_map_fst hS
    have hmne : methodsForPath L (normalizeRequestPath rawPath) ≠ [] := by
      rw [← hmf]
      intro hc
      exact hS (List.map_eq_nil_iff.mp hc)
    have hallow : allowOf ((staticsSpec L (normalizeRequestPath rawPath)).map Prod.fst)
        ≠ "" := by
      rw [hmf]
      exact allowOf_ne_empty _ hmne (methodsForPath_all_ne hmn)
    have h1 : alookup tbl.statics (normalizeRequestPath rawPath)
        = some ⟨staticsSpec L (normalizeRequestPath rawPath),
            allowOf ((staticsSpec L (normalizeRequestPath rawPath)).map Prod.fst)⟩ := by
      rw [serve_statics_lookup hbt (normalizeRequestPath rawPath), if_neg hS]
    have h2 : alookup (staticsSpec L (normalizeRequestPath rawPath)) m = none := by
      rw [alookup_eq_none_iff, hmf]
      exact hm
    refine ⟨sortStrings (methodsForPath L (normalizeRequestPath rawPath)), ?_,
      sortStrings_perm _, sortStrings_sorted _⟩
    unfold serve
    dsimp only
    rw [h1]
    dsimp only
    rw [h2]
    dsimp only
    rw [if_pos hallow, hmf]
    rfl
  · intro hS q0 hfind hm
    have hq0mem : q0 ∈ firstPats L := List.mem_of_find?_eq_some hfind
    obtain ⟨x, hxL, hxq0, hq0par⟩ := firstPats_sound L hq0mem
    have hmf : (patMethodsSpec L q0.shape q0.path).map Prod.fst
        = methodsForPath L q0.path :=
      patMethodsSpec_map_fst hxq0 hq0par
    have hxmem : x.method ∈ methodsForPath L q0.path := by
      refine List.mem_filterMap.mpr ⟨x, hxL, ?_⟩
      rw [hxq0]
      dsimp only
      rw [if_pos rfl]
    have hmne : methodsForPath L q0.path ≠ [] := by
      intro hc
      rw [hc] at hxmem
      exact List.not_mem_nil _ hxmem
    have hallow : allowOf ((patMethodsSpec L q0.shape q0.path).map Prod.fst) ≠ "" := by
      rw [hmf]
      exact allowOf_ne_empty _ hmne (methodsForPath_all_ne hmn)
    have h1 : alookup tbl.statics (normalizeRequestPath rawPath) = none := by
      rw [serve_statics_lookup hbt (normalizeRequestPath rawPath), if_pos hS]
    have h2 : tbl.patterns.find?
          (fun p => (p.1.matchPath (normalizeRequestPath rawPath)).isSome)
        = some (q0, ⟨patMethodsSpec L q0.shape q0.path,
            allowOf ((patMethodsSpec L q0.shape q0.path).map Prod.fst)⟩) := by
      rw [serve_patterns_find hbt (normalizeRequestPath rawPath), hfind]
      rfl
    have h3 : alookup (patMethodsSpec L q0.shape q0.path) m = none := by
      rw [alookup_eq_none_iff, hmf]
      exact hm
    refine ⟨sortStrings (methodsForPath L q0.path), ?_,
      sortStrings_perm _, sortStrings_sorted _⟩
    unfold serve
    dsimp only
    rw [h1]
    dsimp only
    rw [h2]
    dsimp only
    rw [h3]
    dsimp only
    rw [if_pos hallow, hmf]
    rfl

/-- A concrete static route with GET and POST answers DELETE with 405 and
the sorted method list in Allow. -/
theorem c7_witness :
    ∃ ms, (match buildTable [⟨"/ping", "GET", ["h1"], []⟩, ⟨"/ping", "POST", ["h2"], []⟩]
        none [] with
      | .ok t => serve t "DELETE" "/ping"
      | .error _ => ServeOut.notFound)
      = .methodNotAllowed (some (joinStrings ", " ms))
      ∧ ms.Perm (methodsForPath [⟨"/ping", "GET", ["h1"], []⟩, ⟨"/ping", "POST", ["h2"], []⟩]
          (normalizeRequestPath "/ping"))
      ∧ List.Sorted goStrLE ms := by
  obtain ⟨t, ht⟩ : ∃ t, buildTable [⟨"/ping", "GET", ["h1"], []⟩, ⟨"/ping", "POST", ["h2"], []⟩]
      none [] = .ok t := ⟨_, rfl⟩
  obtain ⟨ms, h1, h2, h3⟩ :=
    (c7_unregistered_method_gets_405 "DELETE" "/ping" ht (by decide)).1 (by decide) (by decide)
  exact ⟨ms, by rw [ht]; exact h1, h2, h3⟩

end Httprpc
